import Mathlib

/-!
# Verification of the flash-ui multi-provider streaming generation pipeline

This file is a shallow embedding, in Lean 4, of the core of the flash-ui
repository: the provider error classifier (`parseProviderError` in the server
handlers), the server-side frame encoder of `POST /api/generate` and
`POST /api/variations`, the client-side stream consumer
(`streamGenerateContent` / `streamVariations` in `src/utils.ts`), the
incremental structured-object extractor (`parseJsonStream` in
`src/index.tsx`), the session/task orchestrator (`generateArtifact` and the
copy-on-write `setSessions` updates in `src/index.tsx`), and the local
library storage (`deleteCollection` and friends in `src/utils.ts`).

Pure functions of the source are translated into Lean functions; the
stateful orchestrator is modelled by explicit state passing over the session
list, with concurrent fan-out tasks represented as per-task update scripts
merged in an arbitrary interleaving order.  Machine integers do not occur;
JavaScript string operations are modelled on `String` / `List Char`.
-/

namespace FlashUI

/-- JS-style substring test: `s.includes(sub)`. -/
def includesSub (s sub : String) : Bool := decide (sub.toList <:+: s.toList)

/-- JS `o || d` for an optional string field: `none` and the empty string are
falsy and fall through to the default. -/
def jsOrS : Option String → String → String
  | some s, d => if s = "" then d else s
  | none, d => d

/-- JS `o || d` for an optional numeric field: `none` and `0` are falsy and
fall through to the default. -/
def jsOrN : Option Nat → Nat → Nat
  | some n, d => if n = 0 then d else n
  | none, d => d

/-- `const statusCode = error?.status || error?.statusCode || 500` from
`parseProviderError`. -/
def extractStatus (status statusCode : Option Nat) : Nat :=
  jsOrN status (jsOrN statusCode 500)

/-- The billing-console host picked in the billing branch of
`parseProviderError`. -/
def billingHost (provider : String) : String :=
  if provider = "gemini" then "console.cloud.google.com"
  else if provider = "openai" then "platform.openai.com"
  else "console.anthropic.com"

/-- Message of the auth branch of `parseProviderError` (dev server variant). -/
def authMsg (provider : String) : String :=
  "Invalid or missing " ++ provider ++ " API key. Check your " ++
    provider.toUpper ++ "_API_KEY in .env.local"

/-- `parseProviderError` from the dev server handler: classifies a provider
fault from its message and status fields into an HTTP status plus a
human-readable message.  The message and status extraction
(`error?.message || ...`, `error?.status || error?.statusCode || 500`) is
represented by passing the extracted message and the optional numeric
fields. -/
def parseProviderError (errorMessage : String) (status statusCode : Option Nat)
    (modelId : Option String) (provider : String) : Nat × String :=
  if includesSub errorMessage "API key" || includesSub errorMessage "api_key" ||
      includesSub errorMessage "unauthorized" || extractStatus status statusCode == 401 then
    (401, authMsg provider)
  else if includesSub errorMessage "quota" || includesSub errorMessage "rate limit" ||
      includesSub errorMessage "Rate limit" || extractStatus status statusCode == 429 then
    (429, provider ++ " rate limit exceeded. Please wait a moment and try again.")
  else if includesSub errorMessage "not found" || includesSub errorMessage "does not exist" ||
      includesSub errorMessage "Could not find model" || extractStatus status statusCode == 404 then
    (404, "Model not found. The model ID \"" ++ jsOrS modelId "unknown" ++
      "\" may be incorrect or unavailable.")
  else if includesSub errorMessage "context length" || includesSub errorMessage "too long" ||
      includesSub errorMessage "maximum" then
    (400, "Request too large. Try a shorter prompt.")
  else if includesSub errorMessage "billing" || includesSub errorMessage "payment" ||
      includesSub errorMessage "insufficient" then
    (402, provider ++ " billing issue. Check your account at " ++ billingHost provider)
  else if includesSub errorMessage "timeout" || includesSub errorMessage "ETIMEDOUT" ||
      includesSub errorMessage "ECONNRESET" then
    (504, "Request timed out. The " ++ provider ++ " API is slow or unreachable.")
  else
    (if 400 ≤ extractStatus status statusCode then extractStatus status statusCode else 500,
      provider ++ " error: " ++ errorMessage)

/-- One rule of the spec's classification policy: a match condition together
with the resulting status and message. -/
structure ErrRule where
  ruleMatches : Bool
  ruleStatus : Nat
  ruleMessage : String

/-- The six classification rules in the priority order stated by the spec:
Auth(401), RateLimited(429), ModelNotFound(404), RequestTooLarge(400),
Billing(402), Timeout(504). -/
def providerErrorRules (errorMessage : String) (sc : Nat) (modelId : Option String)
    (provider : String) : List ErrRule :=
  [ ⟨includesSub errorMessage "API key" || includesSub errorMessage "api_key" ||
      includesSub errorMessage "unauthorized" || sc == 401, 401, authMsg provider⟩,
    ⟨includesSub errorMessage "quota" || includesSub errorMessage "rate limit" ||
      includesSub errorMessage "Rate limit" || sc == 429, 429,
      provider ++ " rate limit exceeded. Please wait a moment and try again."⟩,
    ⟨includesSub errorMessage "not found" || includesSub errorMessage "does not exist" ||
      includesSub errorMessage "Could not find model" || sc == 404, 404,
      "Model not found. The model ID \"" ++ jsOrS modelId "unknown" ++
        "\" may be incorrect or unavailable."⟩,
    ⟨includesSub errorMessage "context length" || includesSub errorMessage "too long" ||
      includesSub errorMessage "maximum", 400, "Request too large. Try a shorter prompt."⟩,
    ⟨includesSub errorMessage "billing" || includesSub errorMessage "payment" ||
      includesSub errorMessage "insufficient", 402,
      provider ++ " billing issue. Check your account at " ++ billingHost provider⟩,
    ⟨includesSub errorMessage "timeout" || includesSub errorMessage "ETIMEDOUT" ||
      includesSub errorMessage "ECONNRESET", 504,
      "Request timed out. The " ++ provider ++ " API is slow or unreachable."⟩ ]

/-- The spec's matching policy, stated the way the spec words it: evaluate
the rule list in the fixed priority order, the first matching rule wins, and
if no rule matches return the fault's own status when it is at least 400 and
500 otherwise, with a provider-attributed message. -/
def classifySpec (errorMessage : String) (status statusCode : Option Nat)
    (modelId : Option String) (provider : String) : Nat × String :=
  match (providerErrorRules errorMessage (extractStatus status statusCode) modelId
      provider).find? (fun r => r.ruleMatches) with
  | some r => (r.ruleStatus, r.ruleMessage)
  | none =>
    (if 400 ≤ extractStatus status statusCode then extractStatus status statusCode else 500,
      provider ++ " error: " ++ errorMessage)

/-! ## Local library storage (`src/utils.ts`) -/

structure SavedComponent where
  id : String
  collectionIds : List String
  html : String
deriving DecidableEq

structure Collection where
  id : String
  name : String
deriving DecidableEq

/-- The two independently keyed localStorage collections
(`flash-ui-library` and `flash-ui-collections`), modelled as the lists they
serialize. -/
structure LibraryStore where
  components : List SavedComponent
  collections : List Collection
deriving DecidableEq

/-- `getSavedComponents`: read the saved-component list. -/
def getSavedComponents (st : LibraryStore) : List SavedComponent := st.components

/-- `getCollections`: read the collection list. -/
def getCollections (st : LibraryStore) : List Collection := st.collections

/-- `deleteCollection`: drop the collection with the given id and scrub that
id from every saved component's `collectionIds`. -/
def deleteCollection (collectionId : String) (st : LibraryStore) : LibraryStore :=
  { collections := st.collections.filter (fun c => !(c.id == collectionId)),
    components := st.components.map
      (fun comp =>
        { comp with collectionIds := comp.collectionIds.filter (fun i => !(i == collectionId)) }) }

/-! ## Server-side frame encoder (`POST /api/generate`, `POST /api/variations`) -/

/-- A wire frame on the event-stream channel: a `data: <json-with-text>`
frame or the terminal `data: [DONE]` sentinel. -/
inductive Frame
  | data (text : String)
  | done
deriving DecidableEq

/-- One chunk of the Gemini streaming response; only `chunk.text` is read. -/
structure GeminiChunk where
  text : Option String

/-- One event of the Anthropic streaming response; only
`content_block_delta` events with a `text_delta` carry text. -/
inductive ClaudeEvent
  | textDelta (text : String)
  | otherEvent

/-- One chunk of the OpenAI streaming response; only
`chunk.choices[0]?.delta?.content` is read. -/
structure OpenAIChunk where
  content : Option String

/-- Gemini streaming loop: a frame is written for each chunk whose `text` is
a string (`typeof text === 'string'`). -/
def geminiFrames (cs : List GeminiChunk) : List Frame :=
  cs.filterMap (fun c => c.text.map Frame.data)

/-- Claude streaming loop: a frame is written for each `text_delta` event. -/
def claudeFrames (es : List ClaudeEvent) : List Frame :=
  es.filterMap (fun e => match e with
    | .textDelta t => some (Frame.data t)
    | .otherEvent => none)

/-- OpenAI streaming loop: a frame is written for each chunk with truthy
delta content (so the empty string is skipped). -/
def openaiFrames (cs : List OpenAIChunk) : List Frame :=
  cs.filterMap (fun c => match c.content with
    | some t => if t = "" then none else some (Frame.data t)
    | none => none)

/-- The sequence of frames written onto the event-stream channel by the
streaming branch of the `/api/generate` and `/api/variations` handlers.
`dataFrames` are the frames produced from the provider events delivered
before the stream ended or threw.  On natural exhaustion the handler writes
the terminal `data: [DONE]` frame and closes; when the provider stream
throws mid-iteration the `for await` loop aborts, the terminal write is
skipped, and control reaches the `catch`, which calls
`res.status(status).json(...)` — an HTTP error body, not a `data:` frame —
so no further frame appears on the channel. -/
def streamEndpointTrace (dataFrames : List Frame) (failsMidStream : Bool) : List Frame :=
  if failsMidStream then dataFrames else dataFrames ++ [Frame.done]

/-! ## Client-side stream consumer (`streamGenerateContent` / `streamVariations`) -/

/-- Decoded shape of one `data:` payload as seen through `JSON.parse`:
either malformed (the parse throws and the frame is skipped) or an object
whose optional `text` and `error` fields are read.  The decoder itself is an
external function and stays abstract. -/
inductive Payload
  | malformed
  | obj (text : Option String) (err : Option String)

/-- Truthiness filter for an optional string field: JS treats a missing
field and the empty string as falsy. -/
def truthy : Option String → Option String
  | some s => if s = "" then none else some s
  | none => none

/-- `JS buffer.split('\n')` on a character list: split at every newline,
keeping empty pieces, never returning an empty list of pieces. -/
def splitNlChars : List Char → List (List Char)
  | [] => [[]]
  | c :: cs =>
    if c = '\n' then [] :: splitNlChars cs
    else match splitNlChars cs with
      | [] => [[c]]
      | p :: ps => (c :: p) :: ps

/-- Prefix test on character lists (JS `line.startsWith(p)`). -/
def isPfx : List Char → List Char → Bool
  | [], _ => true
  | _ :: _, [] => false
  | a :: as, b :: bs => a == b && isPfx as bs

/-- Action taken for one buffered line of the stream: lines not starting
with `data: ` are ignored, `data: [DONE]` ends the sequence, and a decoded
payload yields its truthy `text` and then raises on a truthy `error`. -/
inductive LAct
  | skip
  | finishDone
  | emit (y : Option String) (e : Option String)

/-- Processing of one complete line (`line.startsWith('data: ')`, slice off
the 6-character `data: ` field prefix, the `[DONE]` sentinel check, then
`JSON.parse` through the abstract decoder). -/
def procLine (dec : String → Payload) (line : List Char) : LAct :=
  if isPfx ("data: ".toList) line then
    if String.mk (line.drop 6) = "[DONE]" then .finishDone
    else match dec (String.mk (line.drop 6)) with
      | .malformed => .skip
      | .obj t e => .emit (truthy t) (truthy e)
  else .skip

/-- Effect of one line on the result of processing the lines after it:
a skipped line changes nothing, `[DONE]` ends the sequence discarding the
rest, an error payload yields its truthy text and then raises, and a plain
data payload prepends its truthy text. -/
def procLinesStep (dec : String → Payload) (l : List Char)
    (rest : List String × Option (Option String)) : List String × Option (Option String) :=
  match procLine dec l with
  | .skip => rest
  | .finishDone => ([], some none)
  | .emit y e =>
    match e with
    | some m => (y.toList, some (some ("API error: " ++ m)))
    | none => (y.toList ++ rest.1, rest.2)

/-- Process the complete lines extracted from the buffer after one read:
returns the increments yielded by these lines, and `none` to continue
reading, `some none` when the terminal `[DONE]` frame ended the sequence, or
`some (some msg)` when an embedded error payload raised `msg`. -/
def procLines (dec : String → Payload) :
    List (List Char) → List String × Option (Option String)
  | [] => ([], none)
  | l :: ls => procLinesStep dec l (procLines dec ls)

/-- How the consumer's loop terminated. -/
inductive Outcome
  | ok
  | raised (msg : String)
deriving DecidableEq

/-- Observable result of one stream consumption: the increments yielded to
the caller in order, and how the loop ended. -/
structure CResult where
  yields : List String
  outcome : Outcome
deriving DecidableEq

def timeoutMsg : String :=
  "Request timeout: The API took too long to respond. Please try again."

def noDataMsg : String :=
  "No data received from API. The server may not be responding correctly."

/-- The read loop shared by `streamGenerateContent` and `streamVariations`
(their bodies are identical): at the top of each iteration the wall clock is
checked against the 60 000 ms budget, then the next chunk is awaited.  A
read chunk is appended to the partial-line buffer, the buffer is split on
newlines keeping the last partial line, and each complete line is processed.
`reads` carries each chunk with its arrival time; `now` is the wall clock at
the top of the iteration (the arrival time of the previous chunk, initially
the start time); `hasData` records whether any read has returned data. -/
def consumeAux (dec : String → Payload) (startTime : Nat) :
    List Char → Bool → List String → Nat → List (Nat × List Char) → CResult
  | _buffer, hasData, acc, now, [] =>
    if 60000 < now - startTime then ⟨acc, .raised timeoutMsg⟩
    else if hasData then ⟨acc, .ok⟩ else ⟨acc, .raised noDataMsg⟩
  | buffer, _hasData, acc, now, (t, c) :: rest =>
    if 60000 < now - startTime then ⟨acc, .raised timeoutMsg⟩
    else
      match (procLines dec ((splitNlChars (buffer ++ c)).dropLast)).2 with
      | some none =>
        ⟨acc ++ (procLines dec ((splitNlChars (buffer ++ c)).dropLast)).1, .ok⟩
      | some (some m) =>
        ⟨acc ++ (procLines dec ((splitNlChars (buffer ++ c)).dropLast)).1, .raised m⟩
      | none =>
        consumeAux dec startTime (((splitNlChars (buffer ++ c)).getLast?).getD []) true
          (acc ++ (procLines dec ((splitNlChars (buffer ++ c)).dropLast)).1) t rest

/-- The catch-all wrapper at the bottom of both consumers: a raised message
that is truthy and mentions neither `error` nor `timeout` is rethrown as
`Stream error: ...`; anything else is rethrown unchanged. -/
def wrapOutcome : Outcome → Outcome
  | .ok => .ok
  | .raised m =>
    if !(m == "") && !(includesSub m "error") && !(includesSub m "timeout") then
      .raised ("Stream error: " ++ m)
    else .raised m

/-- One full consumption of the event-stream channel, as performed by
`streamGenerateContent` and `streamVariations`. -/
def streamConsume (dec : String → Payload) (startTime : Nat)
    (reads : List (Nat × List Char)) : CResult :=
  ⟨(consumeAux dec startTime [] false [] startTime reads).yields,
   wrapOutcome (consumeAux dec startTime [] false [] startTime reads).outcome⟩

/-- The transport error actually observed by the caller when the channel
ends with no reads: the inner `No data received` message after the catch-all
wrapper. -/
def noDataFinalMsg : String := "Stream error: " ++ noDataMsg

/-! ## Session/task orchestrator (`handleSendMessage` / `generateArtifact`
in `src/index.tsx`) -/

inductive Status
  | streaming
  | complete
  | error
deriving DecidableEq

/-- One of the five parallel candidate outputs of a session
(`Artifact` in `src/types.ts`). -/
structure Artifact where
  id : String
  styleName : String
  html : String
  status : Status
deriving DecidableEq

/-- One user request's record (`Session` in `src/types.ts`). -/
structure Session where
  id : String
  prompt : String
  timestamp : Nat
  artifacts : List Artifact
deriving DecidableEq

structure ComponentVariation where
  name : String
  html : String
deriving DecidableEq

/-- JS `String.prototype.trim` on the character list. -/
def trimChars (l : List Char) : List Char :=
  ((l.dropWhile Char.isWhitespace).reverse.dropWhile Char.isWhitespace).reverse

def trimS (s : String) : String := String.mk (trimChars s.data)

def trimLeftS (s : String) : String := String.mk (s.data.dropWhile Char.isWhitespace)

def trimRightS (s : String) : String :=
  String.mk ((s.data.reverse.dropWhile Char.isWhitespace).reverse)

def dropS (s : String) (n : Nat) : String := String.mk (s.data.drop n)

def dropEndS (s : String) (n : Nat) : String := String.mk (s.data.take (s.data.length - n))

def startsWithS (s p : String) : Bool := isPfx p.data s.data

def endsWithS (s p : String) : Bool := isPfx p.data.reverse s.data.reverse

def stripHtmlFence (f : String) : String :=
  if startsWithS f "```html" then trimLeftS (dropS f 7) else f

def stripBareFence (f : String) : String :=
  if startsWithS f "```" then trimLeftS (dropS f 3) else f

def stripEndFence (f : String) : String :=
  if endsWithS f "```" then trimRightS (dropEndS f 3) else f

/-- The final-text normalization of `generateArtifact`: trim the
accumulated text, then strip a leading ```` ```html ````, then a leading
```` ``` ````, then a trailing ```` ``` ```` code-fence marker. -/
def finalHtmlOf (acc : String) : String :=
  stripEndFence (stripBareFence (stripHtmlFence (trimS acc)))

/-- The diagnostic panel synthesized by `generateArtifact`'s catch. -/
def errorHtml (errorMessage : String) : String :=
  "\n                    <div style=\"padding: 40px; text-align: center; color: #ff6b6b; font-family: system-ui, -apple-system, sans-serif;\">\n                        <div style=\"font-size: 24px; margin-bottom: 16px;\">⚠️ Design Generation Failed</div>\n                        <div style=\"font-size: 14px; color: #ff9999; margin-bottom: 24px; max-width: 500px; margin-left: auto; margin-right: auto;\">\n                            "
    ++ errorMessage ++
    "\n                        </div>\n                        <div style=\"font-size: 12px; color: #999; margin-top: 24px;\">\n                            <div>Common issues:</div>\n                            <ul style=\"text-align: left; display: inline-block; margin-top: 8px;\">\n                                <li>API key not configured (check .env file)</li>\n                                <li>Network connection issues</li>\n                                <li>API rate limits exceeded</li>\n                                <li>Server not running (check port 3001)</li>\n                            </ul>\n                        </div>\n                    </div>\n                "

/-- One copy-on-write update of a single artifact, as data.  These are the
three shapes of `setSessions` update a generation task performs:
the per-increment merge `{ ...art, html: accumulatedHtml }`, the success
finalization `{ ...art, html: finalHtml, status: 'complete' }`, and the
failure finalization
`{ ...art, html: errorHtml, status: 'error', styleName: 'Error' }`. -/
inductive ArtUpd
  | setHtml (h : String)
  | setComplete (h : String)
  | setError (msg : String)
deriving DecidableEq

def ArtUpd.apply : ArtUpd → Artifact → Artifact
  | .setHtml h, a => { a with html := h }
  | .setComplete h, a => { a with html := h, status := .complete }
  | .setError msg, a => { a with html := errorHtml msg, status := .error, styleName := "Error" }

/-- One `setSessions` call: replace the session list by a copy in which only
the session with the owning session id has the artifact with the matching
artifact id replaced (copy-on-write merge keyed by ids, never position). -/
def applyUpd (sessionId : String) (ss : List Session) (u : String × ArtUpd) : List Session :=
  ss.map fun sess =>
    if sess.id = sessionId then
      { sess with artifacts := sess.artifacts.map fun a =>
          if a.id = u.1 then u.2.apply a else a }
    else sess

/-- Apply a merged sequence of task updates to the session list in order. -/
def runUpds (sessionId : String) (ss : List Session) (us : List (String × ArtUpd)) :
    List Session :=
  us.foldl (applyUpd sessionId) ss

/-- Look up a session by id, then an artifact by id inside it. -/
def getArtifact (ss : List Session) (sessionId aid : String) : Option Artifact :=
  (ss.find? (fun s => s.id == sessionId)).bind
    (fun s => s.artifacts.find? (fun a => a.id == aid))

/-- Running concatenations of the delivered chunks
(`accumulatedHtml += text` before each per-increment merge). -/
def accList : String → List String → List String
  | _, [] => []
  | acc, c :: cs => (acc ++ c) :: accList (acc ++ c) cs

/-- The per-increment merges of one generation task. -/
def chunkUpds (aid : String) (chunks : List String) : List (String × ArtUpd) :=
  (accList "" chunks).map fun h => (aid, ArtUpd.setHtml h)

/-- How a task's stream ended: natural exhaustion, or a thrown error with
its message. -/
inductive TaskEnd
  | natural
  | throwErr (msg : String)
deriving DecidableEq

/-- The final update of one generation task: on natural end, an empty
normalized text throws `No HTML content received from API` into the catch
(error finalization), otherwise the success finalization; a thrown stream
error always reaches the catch. -/
def finalUpd (aid : String) (chunks : List String) : TaskEnd → (String × ArtUpd)
  | .natural =>
    if finalHtmlOf (String.join chunks) = "" then
      (aid, .setError "No HTML content received from API")
    else (aid, .setComplete (finalHtmlOf (String.join chunks)))
  | .throwErr msg => (aid, .setError msg)

/-- All updates one generation task performs, in program order. -/
def taskScript (aid : String) (chunks : List String) (te : TaskEnd) :
    List (String × ArtUpd) :=
  chunkUpds aid chunks ++ [finalUpd aid chunks te]

/-- Fold a task's own updates over an artifact (what the task does to the
artifact it owns). -/
def runOwn (a : Artifact) (us : List (String × ArtUpd)) : Artifact :=
  us.foldl (fun x u => u.2.apply x) a

/-- Fold a merged update list over one artifact, applying only the updates
whose artifact id matches (the inner map of `applyUpd`, projected to one
artifact). -/
def condFold (a : Artifact) (us : List (String × ArtUpd)) : Artifact :=
  us.foldl (fun x u => if x.id = u.1 then u.2.apply x else x) a

/-- `m` is an interleaving of the per-task update lists `ls`: at each step
some task contributes its next pending update, and every task's updates are
all eventually contributed in order (`Promise.all` join semantics: no early
abort, one task's failure cancels no sibling). -/
inductive Interleave {α : Type} : List (List α) → List α → Prop
  | nil (ls : List (List α)) : (∀ l ∈ ls, l = []) → Interleave ls []
  | step (ls : List (List α)) (i : Nat) (x : α) (rest : List α) (m : List α) :
      ls[i]? = some (x :: rest) → Interleave (ls.set i rest) m → Interleave ls (x :: m)

/-- `applyVariation` from `src/index.tsx`: write the chosen variation's html
into the focused artifact of the current session — keyed by positional
index, with the status set to `complete` unconditionally. -/
def applyVariation (currentSessionIndex focusedArtifactIndex : Nat)
    (variation : ComponentVariation) (ss : List Session) : List Session :=
  if variation.html = "" then ss
  else
    List.mapIdx (fun i sess =>
      if i = currentSessionIndex then
        { sess with artifacts := List.mapIdx (fun j art =>
            if j = focusedArtifactIndex then
              { art with
                html := variation.html
                styleName := (if variation.name = "" then art.styleName else variation.name)
                status := .complete }
            else art) sess.artifacts }
      else sess) ss

/-- Concrete five-task fan-out fixture: task `a1` is configured to fail with
message `boom`, the other four succeed with one nonempty chunk each. -/
def wTasks : List (String × List String × TaskEnd) :=
  [("a0", ["x"], .natural), ("a1", ["y"], .throwErr "boom"), ("a2", ["z"], .natural),
   ("a3", ["w"], .natural), ("a4", ["v"], .natural)]

/-- Concrete initial session list for the fixture: one session with five
streaming placeholders. -/
def wSessions : List Session :=
  [⟨"s", "make a card", 0,
    [⟨"a0", "s0", "", .streaming⟩, ⟨"a1", "s1", "", .streaming⟩,
     ⟨"a2", "s2", "", .streaming⟩, ⟨"a3", "s3", "", .streaming⟩,
     ⟨"a4", "s4", "", .streaming⟩]⟩]

/-- The sequential interleaving of the fixture's task scripts. -/
def wMerge : List (String × ArtUpd) :=
  (wTasks.map (fun tk => taskScript tk.1 tk.2.1 tk.2.2)).flatten

/-! ## Structured-object extractor (`parseJsonStream` in `src/index.tsx`)

`parseJsonStream` keeps a growing text buffer; on each increment it appends
the text and repeatedly scans from the first `{` for the matching balanced
`}` with a depth counter (found at depth 0, strictly after the start);
a found span is handed to `JSON.parse` — on success it is yielded and cut
from the buffer, on failure the scan restarts at the next `{` after the
failed start.  `JSON.parse` success is abstracted by the predicate `pok`,
and a yielded record is represented by its span text. -/

/-- Brace-depth change of one character (the `{`/`}` counter branches). -/
def braceDelta (c : Char) : Int :=
  if c = '{' then 1 else if c = '}' then -1 else 0

/-- Continuation of the depth scan after the start position: `d` is the
running `braceCount`; returns the offset of the first position where the
count returns to zero. -/
def scanCloseAux : List Char → Int → Option Nat
  | [], _ => none
  | c :: rest, d =>
    if d + braceDelta c = 0 then some 0
    else (scanCloseAux rest (d + braceDelta c)).map (· + 1)

/-- The inner `for` scan of `parseJsonStream` on the suffix starting at
`start`: the count is updated at `start` but the zero test is suppressed
there (`i > start`); returns `end - start`. -/
def scanClose : List Char → Option Nat
  | [] => none
  | c :: rest => (scanCloseAux rest (braceDelta c)).map (· + 1)

/-- `buffer.indexOf('{')`. -/
def idxOpen : List Char → Option Nat
  | [] => none
  | c :: rest => if c = '{' then some 0 else (idxOpen rest).map (· + 1)

/-- The `while (start !== -1)` loop of `parseJsonStream`: yields the spans
parsed from the buffer and returns the remaining buffer.  The fuel only
bounds the loop and is chosen large enough by the caller. -/
def drainFrom (pok : List Char → Bool) : Nat → List Char → Nat → List (List Char) × List Char
  | 0, buf, _ => ([], buf)
  | fuel + 1, buf, start =>
    match scanClose (buf.drop start) with
    | none => ([], buf)
    | some off =>
      if pok ((buf.drop start).take (off + 1)) then
        match idxOpen (buf.drop (start + off + 1)) with
        | none => ([(buf.drop start).take (off + 1)], buf.drop (start + off + 1))
        | some s2 =>
          ((buf.drop start).take (off + 1) ::
              (drainFrom pok fuel (buf.drop (start + off + 1)) s2).1,
            (drainFrom pok fuel (buf.drop (start + off + 1)) s2).2)
      else
        match idxOpen (buf.drop (start + 1)) with
        | none => ([], buf)
        | some s2 => drainFrom pok fuel buf (start + 1 + s2)

/-- Process one buffer: find the first `{` and run the drain loop. -/
def processBuf (pok : List Char → Bool) (fuel : Nat) (b : List Char) :
    List (List Char) × List Char :=
  match idxOpen b with
  | none => ([], b)
  | some s => drainFrom pok fuel b s

/-- One increment: append the chunk to the buffer and process it. -/
def feedChunk (pok : List Char → Bool) (buf chunk : List Char) :
    List (List Char) × List Char :=
  processBuf pok (2 * (buf ++ chunk).length + 1) (buf ++ chunk)

/-- Feed a sequence of increments through the extractor, collecting the
yielded records in order. -/
def feedChunks (pok : List Char → Bool) :
    List Char → List (List Char) → List (List Char) × List Char
  | buf, [] => ([], buf)
  | buf, c :: cs =>
    ((feedChunk pok buf c).1 ++ (feedChunks pok (feedChunk pok buf c).2 cs).1,
      (feedChunks pok (feedChunk pok buf c).2 cs).2)

/-- The records yielded by `parseJsonStream` over a chunked increment
sequence, starting from the empty buffer. -/
def parseJsonStream (pok : List Char → Bool) (chunks : List (List Char)) :
    List (List Char) :=
  (feedChunks pok [] chunks).1

/-- Net brace balance of a text. -/
def bal : List Char → Int
  | [] => 0
  | c :: rest => braceDelta c + bal rest

/-- A filler with no `{` (so it never starts a span). -/
def NoOpen (l : List Char) : Prop := '{' ∉ l

/-- A partial span: every nonempty prefix has strictly positive balance, so
the depth scan never closes inside it (an incomplete record's prefix). -/
def OpenSpan (p : List Char) : Prop := ∀ n, n < p.length → 0 < bal (p.take (n + 1))

/-- A well-formed record span: starts with `{`, balances exactly at its
last character (every proper nonempty prefix stays positive), and parses
successfully. -/
def RecSpan (pok : List Char → Bool) (r : List Char) : Prop :=
  r.head? = some '{' ∧ bal r = 0 ∧
    (∀ n, n + 1 < r.length → 0 < bal (r.take (n + 1))) ∧ pok r = true

/-- The claim's proviso, as a structure on the concatenated text: a sequence
of record spans, each preceded by `{`-free filler, followed by a residue
(filler plus at most one incomplete span); `rs` lists the record spans and
`tl` is the residue. -/
inductive Chain (pok : List Char → Bool) : List Char → List (List Char) → List Char → Prop
  | tail (f p : List Char) : NoOpen f → OpenSpan p → Chain pok (f ++ p) [] (f ++ p)
  | cons (f r t : List Char) (rs : List (List Char)) (tl : List Char) :
      NoOpen f → RecSpan pok r → Chain pok t rs tl → Chain pok (f ++ r ++ t) (r :: rs) tl

/-- A valid residue shape. -/
def Residue (tl : List Char) : Prop := ∃ f p, tl = f ++ p ∧ NoOpen f ∧ OpenSpan p

/-! ## Theorems -/

/-- C4: the error classifier `parseProviderError` equals the spec's
first-match-wins evaluation of the rule list in the fixed priority order
Auth(401), RateLimited(429), ModelNotFound(404), RequestTooLarge(400),
Billing(402), Timeout(504), with the no-match fallback returning the fault's
own status when it is ≥ 400 and 500 otherwise together with the
provider-attributed message `provider ++ " error: " ++ message`. -/
theorem parseProviderError_first_match_priority (errorMessage : String)
    (status statusCode : Option Nat) (modelId : Option String) (provider : String) :
    parseProviderError errorMessage status statusCode modelId provider =
      classifySpec errorMessage status statusCode modelId provider := by
  unfold parseProviderError classifySpec providerErrorRules
  cases h1 : (includesSub errorMessage "API key" || includesSub errorMessage "api_key" ||
      includesSub errorMessage "unauthorized" ||
      extractStatus status statusCode == 401) <;>
    cases h2 : (includesSub errorMessage "quota" || includesSub errorMessage "rate limit" ||
      includesSub errorMessage "Rate limit" ||
      extractStatus status statusCode == 429) <;>
    cases h3 : (includesSub errorMessage "not found" ||
      includesSub errorMessage "does not exist" ||
      includesSub errorMessage "Could not find model" ||
      extractStatus status statusCode == 404) <;>
    cases h4 : (includesSub errorMessage "context length" ||
      includesSub errorMessage "too long" || includesSub errorMessage "maximum") <;>
    cases h5 : (includesSub errorMessage "billing" || includesSub errorMessage "payment" ||
      includesSub errorMessage "insufficient") <;>
    cases h6 : (includesSub errorMessage "timeout" || includesSub errorMessage "ETIMEDOUT" ||
      includesSub errorMessage "ECONNRESET") <;>
    simp [h1, h2, h3, h4, h5, h6, List.find?]

/-- C10: after `deleteCollection cid`, no stored collection has id `cid` and
no saved component returned by `getSavedComponents` still lists `cid` in its
`collectionIds`: deleting a collection preserves referential integrity
between the two independently keyed localStorage collections. -/
theorem deleteCollection_referential_integrity (cid : String) (st : LibraryStore) :
    ((getCollections (deleteCollection cid st)).all (fun c => !(c.id == cid)) = true) ∧
    ((getSavedComponents (deleteCollection cid st)).all
      (fun comp => !(comp.collectionIds.contains cid)) = true) := by
  constructor
  · simp only [getCollections, deleteCollection, List.all_eq_true, List.mem_filter]
    intro c hc
    exact hc.2
  · simp only [getSavedComponents, deleteCollection, List.all_eq_true, List.mem_map]
    rintro comp' ⟨comp, -, rfl⟩
    simp only [Bool.not_eq_true']
    by_contra h
    rw [Bool.not_eq_false] at h
    have hmem := List.mem_of_elem_eq_true h
    have := List.of_mem_filter hmem
    simp at this

/-- A string append keeps the head character of a nonempty left part. -/
lemma data_head_append (p e : String) (c : Char) (hp : p.data.head? = some c) :
    (p ++ e).data.head? = some c := by
  rw [String.data_append]
  cases hd : p.data with
  | nil => rw [hd] at hp; cases hp
  | cons a l =>
    rw [hd] at hp
    simp only [List.head?_cons, Option.some.injEq] at hp
    simp [hp]

/-- String append is left-cancellative. -/
lemma string_append_left_cancel {p a b : String} (h : p ++ a = p ++ b) : a = b := by
  have h2 := congrArg String.data h
  rw [String.data_append, String.data_append] at h2
  exact String.ext (List.append_cancel_left h2)

lemma apiErr_ne_noData (e : String) : "API error: " ++ e ≠ noDataMsg := by
  intro h
  have h2 : ("API error: " ++ e).data.head? = some 'A' := data_head_append _ _ _ rfl
  rw [h] at h2
  exact absurd h2 (by decide)

lemma apiErr_ne_noDataFinal (e : String) : "API error: " ++ e ≠ noDataFinalMsg := by
  intro h
  have h2 : ("API error: " ++ e).data.head? = some 'A' := data_head_append _ _ _ rfl
  rw [h] at h2
  exact absurd h2 (by decide)

lemma wrapOutcome_raised (m : String) :
    wrapOutcome (.raised m) =
      if !(m == "") && !(includesSub m "error") && !(includesSub m "timeout") then
        .raised ("Stream error: " ++ m)
      else .raised m := rfl

/-- The catch-all wrapper never turns a timeout or embedded-API error into
the `No data received` transport error. -/
lemma wrap_ne_noDataFinal_of_form (m : String)
    (hm : m = timeoutMsg ∨ ∃ e, m = "API error: " ++ e) :
    wrapOutcome (.raised m) ≠ .raised noDataFinalMsg := by
  rw [wrapOutcome_raised]
  split
  · intro hc
    injection hc with hc'
    have hmn : m = noDataMsg := by
      apply string_append_left_cancel (p := "Stream error: ")
      rw [hc']; rfl
    rcases hm with h | ⟨e, he⟩
    · rw [h] at hmn; exact absurd hmn (by decide)
    · rw [he] at hmn; exact apiErr_ne_noData e hmn
  · intro hc
    injection hc with hc'
    rcases hm with h | ⟨e, he⟩
    · rw [h] at hc'; exact absurd hc' (by decide)
    · rw [he] at hc'; exact apiErr_ne_noDataFinal e hc'

lemma procLines_nil (dec : String → Payload) : procLines dec [] = ([], none) := rfl

lemma procLines_cons (dec : String → Payload) (l : List Char) (ls : List (List Char)) :
    procLines dec (l :: ls) = procLinesStep dec l (procLines dec ls) := rfl

lemma consumeAux_nil (dec : String → Payload) (startTime : Nat) (buffer : List Char)
    (hasData : Bool) (acc : List String) (now : Nat) :
    consumeAux dec startTime buffer hasData acc now [] =
      if 60000 < now - startTime then ⟨acc, .raised timeoutMsg⟩
      else if hasData then ⟨acc, .ok⟩ else ⟨acc, .raised noDataMsg⟩ := rfl

lemma consumeAux_cons (dec : String → Payload) (startTime : Nat) (buffer : List Char)
    (hasData : Bool) (acc : List String) (now t : Nat) (c : List Char)
    (rest : List (Nat × List Char)) :
    consumeAux dec startTime buffer hasData acc now ((t, c) :: rest) =
      if 60000 < now - startTime then ⟨acc, .raised timeoutMsg⟩
      else
        match (procLines dec ((splitNlChars (buffer ++ c)).dropLast)).2 with
        | some none =>
          ⟨acc ++ (procLines dec ((splitNlChars (buffer ++ c)).dropLast)).1, .ok⟩
        | some (some m) =>
          ⟨acc ++ (procLines dec ((splitNlChars (buffer ++ c)).dropLast)).1, .raised m⟩
        | none =>
          consumeAux dec startTime (((splitNlChars (buffer ++ c)).getLast?).getD []) true
            (acc ++ (procLines dec ((splitNlChars (buffer ++ c)).dropLast)).1) t rest := rfl

/-- Any error raised while processing buffered lines is an embedded
`API error: ...` payload error. -/
lemma procLines_raised_form (dec : String → Payload) :
    ∀ (ls : List (List Char)) m,
      (procLines dec ls).2 = some (some m) → ∃ e, m = "API error: " ++ e := by
  intro ls
  induction ls with
  | nil => intro m h; rw [procLines_nil] at h; cases h
  | cons l ls ih =>
    intro m h
    rw [procLines_cons] at h
    unfold procLinesStep at h
    cases hp : procLine dec l with
    | skip => rw [hp] at h; exact ih m h
    | finishDone => rw [hp] at h; cases h
    | emit y e =>
      rw [hp] at h
      cases e with
      | some em =>
        simp only [Option.some.injEq] at h
        exact ⟨em, h.symm⟩
      | none => exact ih m h

/-- Any error raised by the read loop is the timeout error, the no-data
error, or an embedded `API error: ...`. -/
lemma consumeAux_raised_form (dec : String → Payload) (startTime : Nat) :
    ∀ (reads : List (Nat × List Char)) buffer hasData acc now m,
      (consumeAux dec startTime buffer hasData acc now reads).outcome = .raised m →
      m = timeoutMsg ∨ m = noDataMsg ∨ ∃ e, m = "API error: " ++ e := by
  intro reads
  induction reads with
  | nil =>
    intro buffer hasData acc now m h
    rw [consumeAux_nil] at h
    split at h
    · injection h with h'; exact Or.inl h'.symm
    · split at h
      · cases h
      · injection h with h'; exact Or.inr (Or.inl h'.symm)
  | cons rc rest ih =>
    intro buffer hasData acc now m h
    obtain ⟨t, c⟩ := rc
    rw [consumeAux_cons] at h
    split at h
    · injection h with h'; exact Or.inl h'.symm
    · split at h
      · cases h
      · rename_i m' hm'
        injection h with h'
        subst h'
        exact Or.inr (Or.inr (procLines_raised_form dec _ m' hm'))
      · exact ih _ _ _ _ _ h

/-- Once some chunk has been read (`hasReceivedData = true`), the loop can
no longer raise the no-data error. -/
lemma consumeAux_hasData_ne_noData (dec : String → Payload) (startTime : Nat) :
    ∀ (reads : List (Nat × List Char)) buffer acc now,
      (consumeAux dec startTime buffer true acc now reads).outcome ≠ .raised noDataMsg := by
  intro reads
  induction reads with
  | nil =>
    intro buffer acc now h
    rw [consumeAux_nil] at h
    split at h
    · injection h with h'; exact absurd h'.symm (by decide)
    · simp at h
  | cons rc rest ih =>
    intro buffer acc now h
    obtain ⟨t, c⟩ := rc
    rw [consumeAux_cons] at h
    split at h
    · injection h with h'; exact absurd h'.symm (by decide)
    · split at h
      · cases h
      · rename_i m' hm'
        injection h with h'
        obtain ⟨e, he⟩ := procLines_raised_form dec _ m' hm'
        rw [he] at h'
        exact apiErr_ne_noData e h'
      · exact ih _ _ _ h

lemma wrapOutcome_ok : wrapOutcome .ok = .ok := rfl

lemma streamConsume_outcome (dec : String → Payload) (startTime : Nat)
    (reads : List (Nat × List Char)) :
    (streamConsume dec startTime reads).outcome =
      wrapOutcome (consumeAux dec startTime [] false [] startTime reads).outcome := rfl

/-- The truthiness filter only lets nonempty strings through. -/
lemma truthy_some (t : Option String) (s : String) (h : truthy t = some s) : ¬ s = "" := by
  cases t with
  | none => cases h
  | some u =>
    rw [show truthy (some u) = if u = "" then none else some u from rfl] at h
    by_cases hu : u = ""
    · rw [if_pos hu] at h; cases h
    · rw [if_neg hu] at h
      injection h with h'
      subst h'
      exact hu

/-- Text yielded by an `emit` action is nonempty (JS truthiness of
`parsed.text`). -/
lemma procLine_emit_text_nonempty (dec : String → Payload) (l : List Char)
    (y e : Option String) (hp : procLine dec l = .emit y e) :
    ∀ s, y = some s → ¬ s = "" := by
  unfold procLine at hp
  split at hp
  · split at hp
    · cases hp
    · cases hd : dec (String.mk (l.drop 6)) with
      | malformed => rw [hd] at hp; cases hp
      | obj t e' =>
        rw [hd] at hp
        injection hp with h1 h2
        subst h1
        intro s hs
        exact truthy_some t s hs
  · cases hp

/-- Every increment produced while processing buffered lines is nonempty. -/
lemma procLines_yields_nonempty (dec : String → Payload) :
    ∀ (ls : List (List Char)),
      ((procLines dec ls).1).all (fun s => !(s == "")) = true := by
  intro ls
  induction ls with
  | nil => rfl
  | cons l ls ih =>
    rw [procLines_cons]
    unfold procLinesStep
    cases hp : procLine dec l with
    | skip => exact ih
    | finishDone => rfl
    | emit y e =>
      have hy := procLine_emit_text_nonempty dec l y e hp
      cases e with
      | some m =>
        cases y with
        | none => rfl
        | some s =>
          have hs := hy s rfl
          simp [hs]
      | none =>
        cases y with
        | none => simpa using ih
        | some s =>
          have hs := hy s rfl
          simp [hs, ih]

/-- The read loop only ever appends nonempty increments to the accumulator. -/
lemma consumeAux_yields_nonempty (dec : String → Payload) (startTime : Nat) :
    ∀ (reads : List (Nat × List Char)) buffer hasData acc now,
      acc.all (fun s => !(s == "")) = true →
      ((consumeAux dec startTime buffer hasData acc now reads).yields).all
        (fun s => !(s == "")) = true := by
  intro reads
  induction reads with
  | nil =>
    intro buffer hasData acc now hacc
    rw [consumeAux_nil]
    split
    · exact hacc
    · split
      · exact hacc
      · exact hacc
  | cons rc rest ih =>
    intro buffer hasData acc now hacc
    obtain ⟨t, c⟩ := rc
    rw [consumeAux_cons]
    split
    · exact hacc
    · split
      · simp [List.all_append, hacc, procLines_yields_nonempty]
      · simp [List.all_append, hacc, procLines_yields_nonempty]
      · exact ih _ _ _ _ (by simp [List.all_append, hacc, procLines_yields_nonempty])

lemma lt_of_getElem?_some {α : Type} {l : List α} {i : Nat} {a : α}
    (h : l[i]? = some a) : i < l.length := by
  by_contra hh
  rw [List.getElem?_eq_none (Nat.le_of_not_lt hh)] at h
  cases h

lemma mem_of_getElem?_some {α : Type} {l : List α} {i : Nat} {a : α}
    (h : l[i]? = some a) : a ∈ l := by
  have hlt := lt_of_getElem?_some h
  rw [List.getElem?_eq_getElem hlt] at h
  injection h with h'
  rw [← h']
  exact List.getElem_mem hlt

lemma nodup_ne_of_getElem? {α : Type} {l : List α} (h : l.Nodup) {i j : Nat} {x y : α}
    (hi : l[i]? = some x) (hj : l[j]? = some y) (hij : i ≠ j) : x ≠ y := by
  have hli := lt_of_getElem?_some hi
  have hlj := lt_of_getElem?_some hj
  rw [List.getElem?_eq_getElem hli] at hi
  rw [List.getElem?_eq_getElem hlj] at hj
  injection hi with hi'
  injection hj with hj'
  intro he
  exact hij ((@List.Nodup.getElem_inj_iff _ _ h _ hli _ hlj).mp (by rw [hi', hj', he]))

lemma ArtUpd.apply_id (u : ArtUpd) (a : Artifact) : (u.apply a).id = a.id := by
  cases u <;> rfl

lemma getArtifact_some_id {ss : List Session} {sessionId aid : String} {a : Artifact}
    (h : getArtifact ss sessionId aid = some a) : a.id = aid := by
  unfold getArtifact at h
  cases hf : ss.find? (fun s => s.id == sessionId) with
  | none => rw [hf] at h; cases h
  | some s =>
    rw [hf, Option.some_bind] at h
    simpa using List.find?_some h

lemma getArtifact_applyUpd (sessionId aid : String) (ss : List Session)
    (u : String × ArtUpd) :
    getArtifact (applyUpd sessionId ss u) sessionId aid =
      (getArtifact ss sessionId aid).map
        (fun a => if a.id = u.1 then u.2.apply a else a) := by
  unfold getArtifact applyUpd
  rw [List.find?_map]
  have hq : ((fun (s : Session) => s.id == sessionId) ∘ (fun (sess : Session) =>
      if sess.id = sessionId then
        { sess with artifacts := sess.artifacts.map fun a =>
            if a.id = u.1 then u.2.apply a else a }
      else sess)) = fun (s : Session) => s.id == sessionId := by
    funext s
    by_cases h : s.id = sessionId <;> simp [Function.comp, h]
  rw [hq]
  cases hf : ss.find? (fun s => s.id == sessionId) with
  | none => rfl
  | some s =>
    have hs : s.id = sessionId := by simpa using List.find?_some hf
    have hq2 : ((fun (a : Artifact) => a.id == aid) ∘ (fun (a : Artifact) =>
        if a.id = u.1 then u.2.apply a else a)) = fun (a : Artifact) => a.id == aid := by
      funext a
      by_cases h : a.id = u.1 <;> simp [Function.comp, h, ArtUpd.apply_id]
    simp only [Option.map_some', Option.some_bind]
    rw [if_pos hs]
    dsimp only
    rw [List.find?_map, hq2]

lemma condFold_cons (a : Artifact) (u : String × ArtUpd) (us : List (String × ArtUpd)) :
    condFold a (u :: us) = condFold (if a.id = u.1 then u.2.apply a else a) us := rfl

lemma runOwn_cons (a : Artifact) (u : String × ArtUpd) (us : List (String × ArtUpd)) :
    runOwn a (u :: us) = runOwn (u.2.apply a) us := rfl

lemma runOwn_append (a : Artifact) (us vs : List (String × ArtUpd)) :
    runOwn a (us ++ vs) = runOwn (runOwn a us) vs := by
  unfold runOwn
  rw [List.foldl_append]

/-- Projecting the full merged run onto one artifact id: the artifact found
by id after all updates is the conditional fold of the updates over the
artifact found initially. -/
lemma getArtifact_runUpds (sessionId aid : String) :
    ∀ (us : List (String × ArtUpd)) (ss : List Session),
      getArtifact (runUpds sessionId ss us) sessionId aid =
        (getArtifact ss sessionId aid).map (fun a => condFold a us) := by
  intro us
  induction us with
  | nil =>
    intro ss
    rw [show runUpds sessionId ss [] = ss from rfl]
    cases getArtifact ss sessionId aid <;> rfl
  | cons u us ih =>
    intro ss
    have h1 : runUpds sessionId ss (u :: us) = runUpds sessionId (applyUpd sessionId ss u) us := rfl
    rw [h1, ih, getArtifact_applyUpd, Option.map_map]
    rfl

/-- The conditional fold over an artifact applies exactly the updates
carrying that artifact's id, in order (ids are stable under updates). -/
lemma condFold_eq_runOwn_filter :
    ∀ (us : List (String × ArtUpd)) (a : Artifact),
      condFold a us = runOwn a (us.filter (fun u => u.1 == a.id)) := by
  intro us
  induction us with
  | nil => intro a; rfl
  | cons u us ih =>
    intro a
    by_cases h : a.id = u.1
    · have hb : (u.1 == a.id) = true := by simp [h]
      rw [condFold_cons, if_pos h]
      rw [show (u :: us).filter (fun v => v.1 == a.id) = u :: us.filter (fun v => v.1 == a.id)
        from by simp [List.filter_cons, hb]]
      rw [runOwn_cons, ih, ArtUpd.apply_id]
    · have hb : (u.1 == a.id) = false := by
        simp only [beq_eq_false_iff_ne, ne_eq]
        exact fun hh => h hh.symm
      rw [condFold_cons, if_neg h]
      rw [show (u :: us).filter (fun v => v.1 == a.id) = us.filter (fun v => v.1 == a.id)
        from by simp [List.filter_cons, hb]]
      exact ih a

lemma chunkUpds_mem (aid : String) (chunks : List String) :
    ∀ u ∈ chunkUpds aid chunks, u.1 = aid ∧ ∃ h, u.2 = ArtUpd.setHtml h := by
  intro u hu
  unfold chunkUpds at hu
  rw [List.mem_map] at hu
  obtain ⟨h, -, rfl⟩ := hu
  exact ⟨rfl, h, rfl⟩

lemma finalUpd_fst (aid : String) (chunks : List String) (te : TaskEnd) :
    (finalUpd aid chunks te).1 = aid := by
  cases te with
  | natural =>
    unfold finalUpd
    by_cases hn : finalHtmlOf (String.join chunks) = ""
    · rw [if_pos hn]
    · rw [if_neg hn]
  | throwErr msg => rfl

lemma taskScript_fst (aid : String) (chunks : List String) (te : TaskEnd) :
    ∀ u ∈ taskScript aid chunks te, u.1 = aid := by
  intro u hu
  unfold taskScript at hu
  rw [List.mem_append] at hu
  rcases hu with hu | hu
  · exact (chunkUpds_mem aid chunks u hu).1
  · rw [List.mem_singleton] at hu
    subst hu
    exact finalUpd_fst aid chunks te

/-- A run of pure `setHtml` updates only rewrites `html`: the id, style name
and status are untouched. -/
lemma runOwn_setHtml_fields :
    ∀ (l : List (String × ArtUpd)), (∀ u ∈ l, ∃ h, u.2 = ArtUpd.setHtml h) →
      ∀ (a : Artifact), (runOwn a l).id = a.id ∧
        (runOwn a l).styleName = a.styleName ∧ (runOwn a l).status = a.status := by
  intro l
  induction l with
  | nil => intro _ a; exact ⟨rfl, rfl, rfl⟩
  | cons u l ih =>
    intro hl a
    obtain ⟨h, hu⟩ := hl u (List.mem_cons_self u l)
    rw [runOwn_cons, hu]
    exact ih (fun v hv => hl v (List.mem_cons_of_mem u hv)) { a with html := h }

lemma runOwn_taskScript_natural (aid : String) (chunks : List String) (a : Artifact)
    (hn : ¬ finalHtmlOf (String.join chunks) = "") :
    runOwn a (taskScript aid chunks TaskEnd.natural) =
      ⟨a.id, a.styleName, finalHtmlOf (String.join chunks), Status.complete⟩ := by
  unfold taskScript
  rw [runOwn_append]
  obtain ⟨h1, h2, -⟩ := runOwn_setHtml_fields (chunkUpds aid chunks)
    (fun u hu => (chunkUpds_mem aid chunks u hu).2) a
  rw [show finalUpd aid chunks TaskEnd.natural =
      (aid, ArtUpd.setComplete (finalHtmlOf (String.join chunks))) from by
    unfold finalUpd; rw [if_neg hn]]
  show Artifact.mk (runOwn a (chunkUpds aid chunks)).id
      (runOwn a (chunkUpds aid chunks)).styleName
      (finalHtmlOf (String.join chunks)) Status.complete = _
  rw [h1, h2]

lemma runOwn_taskScript_natural_empty (aid : String) (chunks : List String) (a : Artifact)
    (hn : finalHtmlOf (String.join chunks) = "") :
    runOwn a (taskScript aid chunks TaskEnd.natural) =
      ⟨a.id, "Error", errorHtml "No HTML content received from API", Status.error⟩ := by
  unfold taskScript
  rw [runOwn_append]
  obtain ⟨h1, -, -⟩ := runOwn_setHtml_fields (chunkUpds aid chunks)
    (fun u hu => (chunkUpds_mem aid chunks u hu).2) a
  rw [show finalUpd aid chunks TaskEnd.natural =
      (aid, ArtUpd.setError "No HTML content received from API") from by
    unfold finalUpd; rw [if_pos hn]]
  show Artifact.mk (runOwn a (chunkUpds aid chunks)).id "Error"
      (errorHtml "No HTML content received from API") Status.error = _
  rw [h1]

lemma runOwn_taskScript_throw (aid : String) (chunks : List String) (msg : String)
    (a : Artifact) :
    runOwn a (taskScript aid chunks (TaskEnd.throwErr msg)) =
      ⟨a.id, "Error", errorHtml msg, Status.error⟩ := by
  unfold taskScript
  rw [runOwn_append]
  obtain ⟨h1, -, -⟩ := runOwn_setHtml_fields (chunkUpds aid chunks)
    (fun u hu => (chunkUpds_mem aid chunks u hu).2) a
  show Artifact.mk (runOwn a (chunkUpds aid chunks)).id "Error"
      (errorHtml msg) Status.error = _
  rw [h1]

/-- Filtering an interleaving by a predicate that holds exactly on the
elements of the `i`-th component recovers that component, in order. -/
lemma interleave_filter {α : Type} (p : α → Bool) :
    ∀ (ls : List (List α)) (m : List α), Interleave ls m →
      ∀ (i : Nat) (li : List α), ls[i]? = some li →
        (∀ x ∈ li, p x = true) →
        (∀ j lj, j ≠ i → ls[j]? = some lj → ∀ x ∈ lj, p x = false) →
        m.filter p = li := by
  intro ls m h
  induction h with
  | nil ls hls =>
    intro i li hi _ _
    rw [hls li (mem_of_getElem?_some hi)]
    rfl
  | step ls i0 x rest m hget _ ih =>
    intro i li hi hpi hpj
    have hlt0 : i0 < ls.length := lt_of_getElem?_some hget
    by_cases hcase : i0 = i
    · subst hcase
      rw [hget] at hi
      injection hi with hi'
      subst hi'
      have hx : p x = true := hpi x (List.mem_cons_self x rest)
      rw [show (x :: m).filter p = x :: m.filter p from by simp [List.filter_cons, hx]]
      congr 1
      apply ih i0 rest
      · rw [List.getElem?_set_self hlt0]
      · intro y hy
        exact hpi y (List.mem_cons_of_mem x hy)
      · intro j lj hj hjget y hy
        rw [List.getElem?_set_ne (fun hh => hj hh.symm)] at hjget
        exact hpj j lj hj hjget y hy
    · have hx : p x = false :=
        hpj i0 (x :: rest) hcase hget x (List.mem_cons_self x rest)
      rw [show (x :: m).filter p = m.filter p from by simp [List.filter_cons, hx]]
      apply ih i li
      · rw [List.getElem?_set_ne hcase]
        exact hi
      · exact hpi
      · intro j lj hj hjget y hy
        by_cases hji : j = i0
        · subst hji
          rw [List.getElem?_set_self hlt0] at hjget
          injection hjget with hjget'
          subst hjget'
          exact hpj j (x :: rest) hcase hget y (List.mem_cons_of_mem x hy)
        · rw [List.getElem?_set_ne (fun hh => hji hh.symm)] at hjget
          exact hpj j lj hj hjget y hy

lemma interleave_nil_cons {α : Type} :
    ∀ (ls : List (List α)) (m : List α), Interleave ls m → Interleave ([] :: ls) m := by
  intro ls m h
  induction h with
  | nil ls hls =>
    apply Interleave.nil
    intro l hl
    rcases List.mem_cons.mp hl with rfl | hl
    · rfl
    · exact hls l hl
  | step ls i0 x rest m hget _ ih =>
    exact Interleave.step ([] :: ls) (i0 + 1) x rest m
      (by rw [List.getElem?_cons_succ]; exact hget) ih

/-- The fully sequential merge (task 0's updates, then task 1's, ...) is an
interleaving; it is the one `Promise.all` produces when every task runs to
completion without suspension points interleaving. -/
lemma interleave_flatten {α : Type} : ∀ ls : List (List α), Interleave ls ls.flatten := by
  intro ls
  induction ls with
  | nil => exact Interleave.nil [] (by intro l hl; cases hl)
  | cons l ls ih =>
    have main : ∀ (l' : List α), Interleave (l' :: ls) (l' ++ ls.flatten) := by
      intro l'
      induction l' with
      | nil => exact interleave_nil_cons ls ls.flatten ih
      | cons x l' ihl =>
        exact Interleave.step ((x :: l') :: ls) 0 x l' (l' ++ ls.flatten)
          (by rw [List.getElem?_cons_zero]) ihl
    rw [List.flatten_cons]
    exact main l

/-- In an interleaved merge of task scripts with pairwise distinct artifact
ids, the updates carrying task `j`'s artifact id are exactly task `j`'s
script, in order. -/
lemma merge_filter_eq_taskScript
    (tasks : List (String × List String × TaskEnd))
    (hnodup : (tasks.map (fun tk => tk.1)).Nodup)
    (m : List (String × ArtUpd))
    (hm : Interleave (tasks.map (fun tk => taskScript tk.1 tk.2.1 tk.2.2)) m)
    (j : Nat) (tj : String × List String × TaskEnd) (hj : tasks[j]? = some tj)
    (aid : String) (haid : aid = tj.1) :
    m.filter (fun u => u.1 == aid) = taskScript tj.1 tj.2.1 tj.2.2 := by
  apply interleave_filter _ _ _ hm j
  · rw [List.getElem?_map, hj]
    rfl
  · intro x hx
    have h1 := taskScript_fst _ _ _ x hx
    simp [h1, haid]
  · intro j' lj' hne hget x hx
    rw [List.getElem?_map] at hget
    cases ht' : tasks[j']? with
    | none => rw [ht'] at hget; cases hget
    | some tj' =>
      rw [ht'] at hget
      injection hget with hg
      subst hg
      have hx1 := taskScript_fst _ _ _ x hx
      have hne2 : tj'.1 ≠ tj.1 := by
        have hmap1 : (tasks.map (fun tk => tk.1))[j']? = some tj'.1 := by
          rw [List.getElem?_map, ht']; rfl
        have hmap2 : (tasks.map (fun tk => tk.1))[j]? = some tj.1 := by
          rw [List.getElem?_map, hj]; rfl
        exact nodup_ne_of_getElem? hnodup hmap1 hmap2 hne
      rw [hx1, haid]
      simp [hne2]

/-- A prefix of `ys ++ [z]` is a prefix of `ys` or the whole list. -/
lemma prefix_snoc {α : Type} {l ys : List α} {z : α} (h : l <+: ys ++ [z]) :
    l <+: ys ∨ l = ys ++ [z] := by
  by_cases hlen : l.length ≤ ys.length
  · left
    have ht := List.prefix_iff_eq_take.mp h
    rw [List.take_append_of_le_length hlen] at ht
    rw [ht]
    exact List.take_prefix l.length ys
  · right
    apply h.eq_of_length_le
    have h2 := h.length_le
    rw [List.length_append] at h2 ⊢
    simp only [List.length_singleton] at h2 ⊢
    omega

lemma scanCloseAux_cons (c : Char) (l : List Char) (d : Int) :
    scanCloseAux (c :: l) d =
      if d + braceDelta c = 0 then some 0
      else (scanCloseAux l (d + braceDelta c)).map (· + 1) := rfl

lemma drainFrom_succ (pok : List Char → Bool) (fuel : Nat) (buf : List Char) (start : Nat) :
    drainFrom pok (fuel + 1) buf start =
      match scanClose (buf.drop start) with
      | none => ([], buf)
      | some off =>
        if pok ((buf.drop start).take (off + 1)) then
          match idxOpen (buf.drop (start + off + 1)) with
          | none => ([(buf.drop start).take (off + 1)], buf.drop (start + off + 1))
          | some s2 =>
            ((buf.drop start).take (off + 1) ::
                (drainFrom pok fuel (buf.drop (start + off + 1)) s2).1,
              (drainFrom pok fuel (buf.drop (start + off + 1)) s2).2)
        else
          match idxOpen (buf.drop (start + 1)) with
          | none => ([], buf)
          | some s2 => drainFrom pok fuel buf (start + 1 + s2) := rfl

/-- If the depth stays strictly positive at every position, the scan never
finds a closing position. -/
lemma scanCloseAux_none : ∀ (l : List Char) (d : Int),
    (∀ n, n < l.length → 0 < d + bal (l.take (n + 1))) → scanCloseAux l d = none := by
  intro l
  induction l with
  | nil => intro d _; rfl
  | cons c l ih =>
    intro d h
    have h0 : 0 < d + braceDelta c := by
      have h1 := h 0 (by simp)
      rw [show (c :: l).take 1 = [c] from rfl] at h1
      rw [show bal [c] = braceDelta c + 0 from rfl] at h1
      omega
    rw [scanCloseAux_cons, if_neg (by omega)]
    rw [ih (d + braceDelta c) ?_]
    · rfl
    · intro n hn
      have h2 := h (n + 1) (by simpa using Nat.succ_lt_succ hn)
      rw [show (c :: l).take (n + 1 + 1) = c :: l.take (n + 1) from rfl] at h2
      rw [show bal (c :: l.take (n + 1)) = braceDelta c + bal (l.take (n + 1)) from rfl] at h2
      omega

/-- If the depth first returns to zero exactly at the last character of
`l`, the scan on `l ++ t` stops there, whatever follows. -/
lemma scanCloseAux_close : ∀ (l : List Char) (d : Int), l ≠ [] →
    (∀ n, n + 1 < l.length → d + bal (l.take (n + 1)) ≠ 0) →
    d + bal l = 0 → ∀ t, scanCloseAux (l ++ t) d = some (l.length - 1) := by
  intro l
  induction l with
  | nil => intro d h; exact absurd rfl h
  | cons c l ih =>
    intro d _ hpre hbal t
    cases l with
    | nil =>
      have h0 : d + braceDelta c = 0 := by
        rw [show bal [c] = braceDelta c + 0 from rfl] at hbal
        omega
      rw [List.cons_append, List.nil_append, scanCloseAux_cons, if_pos h0]
      rfl
    | cons c2 l2 =>
      have hne : d + braceDelta c ≠ 0 := by
        have h1 := hpre 0 (by simp)
        rw [show (c :: c2 :: l2).take 1 = [c] from rfl] at h1
        rw [show bal [c] = braceDelta c + 0 from rfl] at h1
        omega
      rw [List.cons_append, scanCloseAux_cons, if_neg hne]
      have hp : ∀ n, n + 1 < (c2 :: l2).length →
          (d + braceDelta c) + bal ((c2 :: l2).take (n + 1)) ≠ 0 := by
        intro n hn
        have h2 := hpre (n + 1) (by simp only [List.length_cons] at hn ⊢; omega)
        rw [show (c :: c2 :: l2).take (n + 1 + 1) = c :: (c2 :: l2).take (n + 1) from rfl] at h2
        rw [show bal (c :: (c2 :: l2).take (n + 1)) =
            braceDelta c + bal ((c2 :: l2).take (n + 1)) from rfl] at h2
        omega
      have hb : (d + braceDelta c) + bal (c2 :: l2) = 0 := by
        rw [show bal (c :: c2 :: l2) = braceDelta c + bal (c2 :: l2) from rfl] at hbal
        omega
      rw [ih (d + braceDelta c) (by simp) hp hb t]
      rfl

/-- The depth scan finds no close inside an open (never-balancing) span. -/
lemma scanClose_openSpan (p : List Char) (hp : OpenSpan p) : scanClose p = none := by
  cases p with
  | nil => rfl
  | cons c rest =>
    rw [show scanClose (c :: rest) = (scanCloseAux rest (braceDelta c)).map (· + 1) from rfl]
    rw [scanCloseAux_none rest (braceDelta c) ?_]
    · rfl
    · intro n hn
      have h2 := hp (n + 1) (by simpa using Nat.succ_lt_succ hn)
      rw [show (c :: rest).take (n + 1 + 1) = c :: rest.take (n + 1) from rfl] at h2
      rw [show bal (c :: rest.take (n + 1)) =
          braceDelta c + bal (rest.take (n + 1)) from rfl] at h2
      omega

lemma recSpan_head {pok : List Char → Bool} {r : List Char} (h : RecSpan pok r) :
    ∃ body, r = '{' :: body := by
  obtain ⟨h1, -, -, -⟩ := h
  cases r with
  | nil => cases h1
  | cons c body =>
    rw [List.head?_cons] at h1
    injection h1 with h1'
    subst h1'
    exact ⟨body, rfl⟩

lemma recSpan_two_le {pok : List Char → Bool} {r : List Char} (h : RecSpan pok r) :
    2 ≤ r.length := by
  obtain ⟨body, rfl⟩ := recSpan_head h
  cases body with
  | nil =>
    obtain ⟨-, h2, -, -⟩ := h
    rw [show bal ['{'] = braceDelta '{' + 0 from rfl] at h2
    rw [show braceDelta '{' = 1 from rfl] at h2
    omega
  | cons c2 body2 =>
    simp only [List.length_cons]
    omega

/-- The depth scan on a record span followed by anything stops exactly at
the record's last character. -/
lemma scanClose_recSpan {pok : List Char → Bool} {r : List Char} (h : RecSpan pok r)
    (t : List Char) : scanClose (r ++ t) = some (r.length - 1) := by
  obtain ⟨body, rfl⟩ := recSpan_head h
  obtain ⟨-, h2, h3, -⟩ := h
  have hbody : body ≠ [] := by
    intro he
    subst he
    rw [show bal ['{'] = braceDelta '{' + 0 from rfl] at h2
    rw [show braceDelta '{' = 1 from rfl] at h2
    omega
  rw [List.cons_append]
  rw [show scanClose ('{' :: (body ++ t)) =
      (scanCloseAux (body ++ t) (braceDelta '{')).map (· + 1) from rfl]
  have hp : ∀ n, n + 1 < body.length → braceDelta '{' + bal (body.take (n + 1)) ≠ 0 := by
    intro n hn
    have h4 := h3 (n + 1) (by simp only [List.length_cons]; omega)
    rw [show ('{' :: body).take (n + 1 + 1) = '{' :: body.take (n + 1) from rfl] at h4
    rw [show bal ('{' :: body.take (n + 1)) =
        braceDelta '{' + bal (body.take (n + 1)) from rfl] at h4
    omega
  have hb : braceDelta '{' + bal body = 0 := by
    rw [show bal ('{' :: body) = braceDelta '{' + bal body from rfl] at h2
    exact h2
  rw [scanCloseAux_close body (braceDelta '{') hbody hp hb t]
  rw [Option.map_some']
  simp only [List.length_cons]
  congr 1
  have : 1 ≤ body.length := by
    cases body with
    | nil => exact absurd rfl hbody
    | cons _ _ => simp
  omega

lemma idxOpen_noOpen : ∀ {f : List Char}, NoOpen f → idxOpen f = none := by
  intro f
  induction f with
  | nil => intro _; rfl
  | cons c f ih =>
    intro h
    have hc : c ≠ '{' := by
      intro he
      exact h (he ▸ List.mem_cons_self c f)
    rw [show idxOpen (c :: f) =
        (if c = '{' then some 0 else (idxOpen f).map (· + 1)) from rfl]
    rw [if_neg hc, ih (fun hm => h (List.mem_cons_of_mem c hm))]
    rfl

lemma idxOpen_append_open (f : List Char) (hf : NoOpen f) (rest : List Char) :
    idxOpen (f ++ '{' :: rest) = some f.length := by
  induction f with
  | nil =>
    rw [List.nil_append]
    rw [show idxOpen ('{' :: rest) =
        (if '{' = '{' then some 0 else (idxOpen rest).map (· + 1)) from rfl]
    rw [if_pos rfl]
    rfl
  | cons c f ih =>
    have hc : c ≠ '{' := by
      intro he
      exact hf (he ▸ List.mem_cons_self c f)
    rw [List.cons_append]
    rw [show idxOpen (c :: (f ++ '{' :: rest)) =
        (if c = '{' then some 0 else (idxOpen (f ++ '{' :: rest)).map (· + 1)) from rfl]
    rw [if_neg hc, ih (fun hm => hf (List.mem_cons_of_mem c hm))]
    rfl

lemma openSpan_head (c : Char) (rest : List Char) (h : OpenSpan (c :: rest)) : c = '{' := by
  have h1 := h 0 (by simp)
  rw [show (c :: rest).take 1 = [c] from rfl] at h1
  rw [show bal [c] = braceDelta c + 0 from rfl] at h1
  unfold braceDelta at h1
  by_cases hb : c = '{'
  · exact hb
  · rw [if_neg hb] at h1
    by_cases hb2 : c = '}'
    · rw [if_pos hb2] at h1
      omega
    · rw [if_neg hb2] at h1
      omega

lemma chain_records_le {pok : List Char → Bool} :
    ∀ {b : List Char} {rs : List (List Char)} {tl : List Char},
      Chain pok b rs tl → rs.length ≤ b.length := by
  intro b rs tl h
  induction h with
  | tail f p _ _ => simp
  | cons f r t rs tl _ hr _ ih =>
    have h2 := recSpan_two_le hr
    simp only [List.length_cons, List.length_append]
    omega

lemma noOpen_nil : NoOpen ([] : List Char) := by
  intro h
  cases h

lemma openSpan_nil : OpenSpan ([] : List Char) := by
  intro n hn
  simp at hn

lemma chain_tail_eq {pok : List Char → Bool} (f p b : List Char) (hf : NoOpen f)
    (hp : OpenSpan p) (hb : b = f ++ p) : Chain pok b [] b := by
  rw [hb]
  exact Chain.tail f p hf hp

lemma chain_tail_eq2 {pok : List Char → Bool} (f p b tl : List Char) (hf : NoOpen f)
    (hp : OpenSpan p) (hb : b = f ++ p) (htl : tl = f ++ p) : Chain pok b [] tl := by
  rw [hb, htl]
  exact Chain.tail f p hf hp

lemma chain_cons_eq {pok : List Char → Bool} (f r t b : List Char) (rs : List (List Char))
    (tl : List Char) (hf : NoOpen f) (hr : RecSpan pok r) (hch : Chain pok t rs tl)
    (hb : b = f ++ r ++ t) : Chain pok b (r :: rs) tl := by
  rw [hb]
  exact Chain.cons f r t rs tl hf hr hch

lemma openSpan_append_left {p a w : List Char} (hp : OpenSpan p) (he : p = a ++ w) :
    OpenSpan a := by
  intro n hn
  have h1 := hp n (by rw [he]; simp only [List.length_append]; omega)
  rw [he, List.take_append_of_le_length (by omega)] at h1
  exact h1

lemma recSpan_prefix_open {pok : List Char → Bool} {r : List Char} (hr : RecSpan pok r)
    (a c : List Char) (he : r = a ++ c) (hc : c ≠ []) : OpenSpan a := by
  intro n hn
  have hcl : 0 < c.length := List.length_pos.mpr hc
  have hlt : a.length < r.length := by rw [he]; simp only [List.length_append]; omega
  have h1 := hr.2.2.1 n (by omega)
  rw [he, List.take_append_of_le_length (by omega)] at h1
  exact h1

lemma drainFrom_none (pok : List Char → Bool) (fuel : Nat) (buf : List Char) (start : Nat)
    (hscan : scanClose (buf.drop start) = none) :
    drainFrom pok (fuel + 1) buf start = ([], buf) := by
  rw [drainFrom_succ, hscan]

lemma drainFrom_step (pok : List Char → Bool) (fuel : Nat) (buf : List Char) (start off : Nat)
    (hscan : scanClose (buf.drop start) = some off) :
    drainFrom pok (fuel + 1) buf start =
      if pok ((buf.drop start).take (off + 1)) then
        match idxOpen (buf.drop (start + off + 1)) with
        | none => ([(buf.drop start).take (off + 1)], buf.drop (start + off + 1))
        | some s2 =>
          ((buf.drop start).take (off + 1) ::
              (drainFrom pok fuel (buf.drop (start + off + 1)) s2).1,
            (drainFrom pok fuel (buf.drop (start + off + 1)) s2).2)
      else
        match idxOpen (buf.drop (start + 1)) with
        | none => ([], buf)
        | some s2 => drainFrom pok fuel buf (start + 1 + s2) := by
  rw [drainFrom_succ, hscan]

lemma processBuf_noOpen (pok : List Char → Bool) (fuel : Nat) (b : List Char)
    (h : idxOpen b = none) : processBuf pok fuel b = ([], b) := by
  unfold processBuf
  rw [h]

lemma processBuf_open (pok : List Char → Bool) (fuel : Nat) (b : List Char) (s : Nat)
    (h : idxOpen b = some s) : processBuf pok fuel b = drainFrom pok fuel b s := by
  unfold processBuf
  rw [h]

/-- The drain loop, given enough fuel, yields exactly the record spans of a
chain decomposition and leaves its residue. -/
lemma drain_chain (pok : List Char → Bool) :
    ∀ {b : List Char} {rs : List (List Char)} {tl : List Char}, Chain pok b rs tl →
      ∀ fuel, rs.length < fuel → processBuf pok fuel b = (rs, tl) := by
  intro b rs tl h
  induction h with
  | tail f p hf hp =>
    intro fuel hfuel
    cases p with
    | nil =>
      rw [List.append_nil]
      exact processBuf_noOpen pok fuel f (idxOpen_noOpen hf)
    | cons c rest =>
      have hc := openSpan_head c rest hp
      subst hc
      have h0 : 0 < fuel := by simpa using hfuel
      obtain ⟨fu, rfl⟩ : ∃ fu, fuel = fu + 1 := ⟨fuel - 1, by omega⟩
      rw [processBuf_open pok (fu + 1) _ f.length (idxOpen_append_open f hf rest)]
      have hscan0 : scanClose ((f ++ '{' :: rest).drop f.length) = none := by
        rw [List.drop_left]
        exact scanClose_openSpan _ hp
      rw [drainFrom_none pok fu _ f.length hscan0]
  | cons f r t rs tl hf hr hch ih =>
    intro fuel hfuel
    have h2 := recSpan_two_le hr
    obtain ⟨body, hbody⟩ := recSpan_head hr
    have hb1 : f ++ r ++ t = f ++ '{' :: (body ++ t) := by
      rw [hbody, List.append_assoc, List.cons_append]
    rw [hb1]
    obtain ⟨fu, rfl⟩ : ∃ fu, fuel = fu + 1 := ⟨fuel - 1, by omega⟩
    rw [processBuf_open pok (fu + 1) _ f.length (idxOpen_append_open f hf (body ++ t))]
    have hscan1 : scanClose ((f ++ '{' :: (body ++ t)).drop f.length) = some (r.length - 1) := by
      rw [List.drop_left, ← List.cons_append, ← hbody]
      exact scanClose_recSpan hr t
    rw [drainFrom_step pok fu _ f.length (r.length - 1) hscan1]
    have htake : ((f ++ '{' :: (body ++ t)).drop f.length).take (r.length - 1 + 1) = r := by
      rw [List.drop_left]
      rw [show r.length - 1 + 1 = r.length from by omega]
      rw [← List.cons_append, ← hbody]
      exact List.take_left r t
    rw [htake, if_pos hr.2.2.2]
    have hdrop : (f ++ '{' :: (body ++ t)).drop (f.length + (r.length - 1) + 1) = t := by
      rw [← List.cons_append, ← hbody, ← List.append_assoc]
      rw [show f.length + (r.length - 1) + 1 = (f ++ r).length from by
        simp only [List.length_append]; omega]
      exact List.drop_left (f ++ r) t
    rw [hdrop]
    have hrec : processBuf pok fu t = (rs, tl) := by
      apply ih
      simp only [List.length_cons] at hfuel
      omega
    cases hit : idxOpen t with
    | none =>
      have hrec2 : (([] : List (List Char)), t) = (rs, tl) := by
        rw [← hrec]
        exact (processBuf_noOpen pok fu t hit).symm
      have he1 : rs = [] := (congrArg Prod.fst hrec2).symm
      have he2 : tl = t := (congrArg Prod.snd hrec2).symm
      show ([r], t) = (r :: rs, tl)
      rw [he1, he2]
    | some s2 =>
      have hrec2 : drainFrom pok fu t s2 = (rs, tl) := by
        rw [← hrec]
        exact (processBuf_open pok fu t s2 hit).symm
      show (r :: (drainFrom pok fu t s2).1, (drainFrom pok fu t s2).2) = (r :: rs, tl)
      rw [hrec2]

/-- Two chain decompositions of the same buffer agree. -/
lemma chain_deterministic {pok : List Char → Bool} {b : List Char}
    {rs1 rs2 : List (List Char)} {tl1 tl2 : List Char}
    (h1 : Chain pok b rs1 tl1) (h2 : Chain pok b rs2 tl2) : rs1 = rs2 ∧ tl1 = tl2 := by
  have e1 := drain_chain pok h1 (b.length + 1)
    (by have := chain_records_le h1; omega)
  have e2 := drain_chain pok h2 (b.length + 1)
    (by have := chain_records_le h2; omega)
  rw [e1] at e2
  exact ⟨congrArg Prod.fst e2, congrArg Prod.snd e2⟩

/-- One increment step realizes a chain decomposition of the full buffer. -/
lemma feedChunk_chain {pok : List Char → Bool} {buf chunk : List Char}
    {rs : List (List Char)} {tl : List Char} (h : Chain pok (buf ++ chunk) rs tl) :
    feedChunk pok buf chunk = (rs, tl) := by
  unfold feedChunk
  exact drain_chain pok h (2 * (buf ++ chunk).length + 1)
    (by have := chain_records_le h; omega)

/-- A chain's leftover is a valid residue. -/
lemma chain_residue {pok : List Char → Bool} :
    ∀ {b : List Char} {rs : List (List Char)} {tl : List Char},
      Chain pok b rs tl → Residue tl := by
  intro b rs tl h
  induction h with
  | tail f p hf hp => exact ⟨f, p, rfl, hf, hp⟩
  | cons f r t rs tl hf hr hch ih => exact ih

/-- Splitting a chained buffer at an arbitrary point splits its records into
those completed within the first part and the rest, with a residue carried
across the cut. -/
lemma chain_split {pok : List Char → Bool} :
    ∀ {x : List Char} {rs : List (List Char)} {tl : List Char}, Chain pok x rs tl →
      ∀ b w, x = b ++ w →
        ∃ rs1 tl1 rs2, rs = rs1 ++ rs2 ∧ Chain pok b rs1 tl1 ∧
          Chain pok (tl1 ++ w) rs2 tl := by
  intro x rs tl h
  induction h with
  | tail f p hf hp =>
    intro b w hbw
    rcases List.append_eq_append_iff.mp hbw with ⟨a, hb1, hp1⟩ | ⟨c, hf1, hw1⟩
    · refine ⟨[], b, [], rfl, ?_, ?_⟩
      · exact chain_tail_eq f a b hf (openSpan_append_left hp hp1) hb1
      · exact chain_tail_eq2 f p (b ++ w) (f ++ p) hf hp
          (by rw [hb1, List.append_assoc, ← hp1]) rfl
    · refine ⟨[], b, [], rfl, ?_, ?_⟩
      · exact chain_tail_eq b [] b
          (fun hm => hf (by rw [hf1]; exact List.mem_append_left c hm)) openSpan_nil
          (by rw [List.append_nil])
      · exact chain_tail_eq2 f p (b ++ w) (f ++ p) hf hp
          (by rw [hw1, hf1, List.append_assoc]) rfl
  | cons f r t rs tl hf hr hch ih =>
    intro b w hbw
    rcases List.append_eq_append_iff.mp hbw with ⟨a, hb1, ht1⟩ | ⟨c, hfr1, hw1⟩
    · obtain ⟨rs1, tl1, rs2, hsplit, hch1, hch2⟩ := ih a w ht1
      refine ⟨r :: rs1, tl1, rs2, by simp [hsplit], ?_, hch2⟩
      exact chain_cons_eq f r a b rs1 tl1 hf hr hch1 hb1
    · rcases List.append_eq_append_iff.mp hfr1 with ⟨a, hb2, hr2⟩ | ⟨c2, hf2, hc2⟩
      · by_cases hcnil : c = []
        · subst hcnil
          refine ⟨[r], [], rs, by simp, ?_, ?_⟩
          · refine chain_cons_eq f r [] b [] [] hf hr
              (chain_tail_eq [] [] [] noOpen_nil openSpan_nil rfl) ?_
            rw [hb2, hr2]
            simp
          · rw [List.nil_append, hw1, List.nil_append]
            exact hch
        · refine ⟨[], b, r :: rs, rfl, ?_, ?_⟩
          · exact chain_tail_eq f a b hf (recSpan_prefix_open hr a c hr2 hcnil) hb2
          · refine chain_cons_eq f r t (b ++ w) rs tl hf hr hch ?_
            rw [hb2, hw1, hr2]
            simp [List.append_assoc]
      · refine ⟨[], b, r :: rs, rfl, ?_, ?_⟩
        · exact chain_tail_eq b [] b
            (fun hm => hf (by rw [hf2]; exact List.mem_append_left c2 hm)) openSpan_nil
            (by rw [List.append_nil])
        · refine chain_cons_eq f r t (b ++ w) rs tl hf hr hch ?_
          rw [hw1, hc2, hf2]
          simp [List.append_assoc]

lemma feedChunks_cons (pok : List Char → Bool) (buf c : List Char) (cs : List (List Char)) :
    feedChunks pok buf (c :: cs) =
      ((feedChunk pok buf c).1 ++ (feedChunks pok (feedChunk pok buf c).2 cs).1,
        (feedChunks pok (feedChunk pok buf c).2 cs).2) := rfl

/-- Feeding chunks from a residue buffer realizes any chain decomposition of
the residue followed by the concatenated chunks. -/
lemma feedChunks_chain (pok : List Char → Bool) :
    ∀ (cs : List (List Char)) (buf : List Char), Residue buf →
      ∀ {rs : List (List Char)} {tl : List Char}, Chain pok (buf ++ cs.flatten) rs tl →
        feedChunks pok buf cs = (rs, tl) := by
  intro cs
  induction cs with
  | nil =>
    intro buf hres rs tl h
    obtain ⟨f, p, hbuf, hf, hp⟩ := hres
    rw [show ([] : List (List Char)).flatten = [] from rfl, List.append_nil] at h
    have h0 : Chain pok buf [] buf := chain_tail_eq f p buf hf hp hbuf
    obtain ⟨he1, he2⟩ := chain_deterministic h0 h
    show (([] : List (List Char)), buf) = (rs, tl)
    rw [← he1, ← he2]
  | cons c cs ih =>
    intro buf hres rs tl h
    rw [show (c :: cs).flatten = c ++ cs.flatten from rfl, ← List.append_assoc] at h
    obtain ⟨rs1, tl1, rs2, hsplit, hch1, hch2⟩ := chain_split h (buf ++ c) cs.flatten rfl
    have hfeed : feedChunk pok buf c = (rs1, tl1) := feedChunk_chain hch1
    have hres1 : Residue tl1 := chain_residue hch1
    have hrec : feedChunks pok tl1 cs = (rs2, tl) := ih tl1 hres1 hch2
    rw [feedChunks_cons, hfeed]
    dsimp only
    rw [hrec]
    dsimp only
    rw [← hsplit]

/-- C1: evaluation of the streaming endpoints' frame trace at a mid-stream
failure, for each provider.  With one delivered text event `"Hel"` followed
by a provider-stream throw, the channel trace is exactly one data frame: the
terminal `data: [DONE]` frame is never written (it sits after the streaming
loop, inside the `try`), and no in-band error frame is written either (the
`catch` attempts an HTTP JSON error body after the event-stream headers have
already been sent). -/
theorem generate_midstream_failure_omits_terminal :
    streamEndpointTrace (geminiFrames [⟨some "Hel"⟩]) true = [Frame.data "Hel"] ∧
    streamEndpointTrace (claudeFrames [ClaudeEvent.textDelta "Hel"]) true = [Frame.data "Hel"] ∧
    streamEndpointTrace (openaiFrames [⟨some "Hel"⟩]) true = [Frame.data "Hel"] ∧
    Frame.done ∉ streamEndpointTrace (geminiFrames [⟨some "Hel"⟩]) true := by
  refine ⟨rfl, rfl, rfl, ?_⟩
  decide

/-- C6 (counterexample): a channel that delivers exactly one read containing
no `data:` frame at all and then ends, terminates the consumer normally with
zero increments — no transport error is raised, although the channel ended
having delivered zero frames.  Thus zero decoded frames do not imply the
`No data received` error; only zero reads do. -/
theorem streamConsume_zero_frames_one_read_no_error :
    streamConsume (fun _ => Payload.malformed) 0 [(1, ['x', '\n'])] =
      ⟨[], Outcome.ok⟩ := by
  rfl

/-- C6 (amended): the consumer raises the transport-style
`No data received from API...` error (surfaced through the catch-all wrapper
as `Stream error: No data received from API...`) exactly when the channel
ends having delivered zero reads.  As soon as at least one chunk has been
read — even one carrying no decodable frame, or a legitimately empty
successful generation — this error can no longer be raised. -/
theorem streamConsume_noData_iff_no_reads (dec : String → Payload) (startTime : Nat)
    (reads : List (Nat × List Char)) :
    ((streamConsume dec startTime reads).outcome = .raised noDataFinalMsg) ↔ reads = [] := by
  constructor
  · intro h
    cases reads with
    | nil => rfl
    | cons rc rest =>
      exfalso
      obtain ⟨t, c⟩ := rc
      rw [streamConsume_outcome, consumeAux_cons,
        if_neg (by omega : ¬ 60000 < startTime - startTime)] at h
      cases hp : (procLines dec ((splitNlChars ([] ++ c)).dropLast)).2 with
      | none =>
        rw [hp] at h
        cases ho : (consumeAux dec startTime (((splitNlChars ([] ++ c)).getLast?).getD [])
            true ([] ++ (procLines dec ((splitNlChars ([] ++ c)).dropLast)).1) t rest).outcome with
        | ok => rw [ho, wrapOutcome_ok] at h; cases h
        | raised m =>
          rw [ho] at h
          have hform := consumeAux_raised_form dec startTime rest _ true _ t m ho
          have hnd : ¬ m = noDataMsg := by
            intro he
            exact consumeAux_hasData_ne_noData dec startTime rest _ _ t (by rw [ho, he])
          rcases hform with h1 | h2 | h3
          · exact wrap_ne_noDataFinal_of_form m (Or.inl h1) h
          · exact hnd h2
          · exact wrap_ne_noDataFinal_of_form m (Or.inr h3) h
      | some om =>
        cases om with
        | none =>
          rw [hp] at h
          exact Outcome.noConfusion
            (show Outcome.ok = Outcome.raised noDataFinalMsg from h)
        | some m' =>
          rw [hp] at h
          have hform := procLines_raised_form dec _ m' hp
          exact wrap_ne_noDataFinal_of_form m' (Or.inr hform) h
  · intro h
    subst h
    rw [streamConsume_outcome, consumeAux_nil,
      if_neg (by omega : ¬ 60000 < startTime - startTime)]
    set_option maxRecDepth 10000 in decide

/-- C7: the 60-second wall-clock timeout bounds every stream consumption:
at the top of any loop iteration — the point where the consumer is about to
await the next chunk — if more than 60 000 ms have elapsed since
consumption started, the consumer raises the timeout error instead of
reading further, and the increments delivered to the caller are exactly
those yielded before the timeout fired, whatever reads were still pending. -/
theorem consumeAux_timeout_bounds (dec : String → Payload) (startTime : Nat)
    (buffer : List Char) (hasData : Bool) (acc : List String) (now : Nat)
    (reads : List (Nat × List Char)) (h : 60000 < now - startTime) :
    consumeAux dec startTime buffer hasData acc now reads = ⟨acc, .raised timeoutMsg⟩ := by
  cases reads with
  | nil => rw [consumeAux_nil, if_pos h]
  | cons rc rest =>
    obtain ⟨t, c⟩ := rc
    rw [consumeAux_cons, if_pos h]

/-- Witness for C7 at a concrete state: 60 001 ms elapsed, one yielded
increment so far, one pending read — the loop raises the timeout error and
yields nothing further. -/
theorem consumeAux_timeout_bounds_witness :
    consumeAux (fun _ => Payload.malformed) 0 [] true ["prev"] 60001 [(60002, ['x', '\n'])] =
      ⟨["prev"], .raised timeoutMsg⟩ :=
  consumeAux_timeout_bounds (fun _ => Payload.malformed) 0 [] true ["prev"] 60001
    [(60002, ['x', '\n'])] (by decide)

/-- C9: every increment yielded to the caller by the stream consumers is a
nonempty string: a frame whose decoded payload has a missing or empty
(falsy) `text` field contributes no increment. -/
theorem streamConsume_yields_nonempty (dec : String → Payload) (startTime : Nat)
    (reads : List (Nat × List Char)) :
    ((streamConsume dec startTime reads).yields).all (fun s => !(s == "")) = true :=
  consumeAux_yields_nonempty dec startTime reads [] false [] startTime rfl

/-- C3: partial-failure isolation in the five-task fan-out.  For any
interleaving `m` of the five tasks' update scripts (the `Promise.all` join
delivers every task's updates — no sibling is cancelled early), if exactly
one task throws and every other task ends naturally with nonempty
normalized text, then the failing task's artifact alone ends in `Error`
(with the synthesized diagnostic) and every other artifact ends `Complete`
with its own accumulated, normalized text, its style name untouched. -/
theorem fanout_partial_failure_isolation
    (sessionId : String) (tasks : List (String × List String × TaskEnd))
    (k : Nat) (failMsg akId : String) (kChunks : List String)
    (_hlen : tasks.length = 5)
    (hnodup : (tasks.map (fun tk => tk.1)).Nodup)
    (hkt : tasks[k]? = some (akId, kChunks, TaskEnd.throwErr failMsg))
    (hothers : ∀ j, j < tasks.length → j ≠ k →
      match tasks[j]? with
      | some tj => tj.2.2 = TaskEnd.natural ∧ ¬ finalHtmlOf (String.join tj.2.1) = ""
      | none => True)
    (m : List (String × ArtUpd))
    (hm : Interleave (tasks.map (fun tk => taskScript tk.1 tk.2.1 tk.2.2)) m)
    (ss : List Session) (j : Nat) (tj : String × List String × TaskEnd)
    (hj : tasks[j]? = some tj) (a : Artifact)
    (ha : getArtifact ss sessionId tj.1 = some a) :
    getArtifact (runUpds sessionId ss m) sessionId tj.1 =
      some (if j = k then ⟨a.id, "Error", errorHtml failMsg, Status.error⟩
            else ⟨a.id, a.styleName, finalHtmlOf (String.join tj.2.1), Status.complete⟩) := by
  have haid : a.id = tj.1 := getArtifact_some_id ha
  rw [getArtifact_runUpds, ha, Option.map_some']
  congr 1
  rw [condFold_eq_runOwn_filter,
    merge_filter_eq_taskScript tasks hnodup m hm j tj hj a.id haid]
  by_cases hjk : j = k
  · subst hjk
    rw [hkt] at hj
    injection hj with hj'
    subst hj'
    rw [if_pos rfl]
    exact runOwn_taskScript_throw _ _ _ a
  · rw [if_neg hjk]
    have hlt : j < tasks.length := lt_of_getElem?_some hj
    have ho := hothers j hlt hjk
    rw [hj] at ho
    obtain ⟨hnat, hne⟩ := ho
    rw [hnat]
    exact runOwn_taskScript_natural tj.1 tj.2.1 a hne

/-- Witness for C3 at the concrete fixture: task `a1` fails, the sequential
interleaving is used, and task `a0`'s artifact ends `Complete` with its own
text, unaffected by the failure. -/
theorem fanout_partial_failure_isolation_witness :
    getArtifact (runUpds "s" wSessions wMerge) "s" "a0" =
      some ⟨"a0", "s0", "x", Status.complete⟩ := by
  have h := fanout_partial_failure_isolation "s" wTasks 1 "boom" "a1" ["y"]
    (by decide) (by decide) (by decide)
    (by
      intro j hjl hne
      have h5 : j < 5 := by simpa [wTasks] using hjl
      interval_cases j
      · exact ⟨rfl, by decide⟩
      · exact absurd rfl hne
      · exact ⟨rfl, by decide⟩
      · exact ⟨rfl, by decide⟩
      · exact ⟨rfl, by decide⟩)
    wMerge (interleave_flatten _) wSessions 0 ("a0", ["x"], TaskEnd.natural)
    (by decide) ⟨"a0", "s0", "", Status.streaming⟩ (by decide)
  exact h.trans (by decide)

/-- C5 (counterexample): with the single delivered increment `" x "`, the
task completes (status `Complete`) but the artifact's final `html` is the
trimmed text `"x"`, not the concatenation `" x "` of the delivered
increments — the round-trip equality of the claim fails. -/
theorem artifact_final_html_ne_concat :
    (runOwn ⟨"a0", "sn", "", Status.streaming⟩
        (taskScript "a0" [" x "] TaskEnd.natural)).status = Status.complete ∧
    (runOwn ⟨"a0", "sn", "", Status.streaming⟩
        (taskScript "a0" [" x "] TaskEnd.natural)).html ≠ String.join [" x "] := by
  constructor
  · decide
  · decide

/-- C5 (amended): at the moment an artifact's status becomes terminal, its
`html` is a function of the concatenation of the delivered increments —
namely the trimmed, code-fence-stripped concatenation on `Complete`
(or the synthesized diagnostic when that normalization is empty), and the
synthesized diagnostic carrying the error message on `Error`. -/
theorem artifact_final_html_roundtrip (aid : String) (chunks : List String)
    (msg : String) (a : Artifact) :
    ((runOwn a (taskScript aid chunks TaskEnd.natural)).html =
        (if finalHtmlOf (String.join chunks) = "" then
          errorHtml "No HTML content received from API"
         else finalHtmlOf (String.join chunks)) ∧
     (runOwn a (taskScript aid chunks TaskEnd.natural)).status =
        (if finalHtmlOf (String.join chunks) = "" then Status.error
         else Status.complete)) ∧
    (runOwn a (taskScript aid chunks (TaskEnd.throwErr msg))).html = errorHtml msg ∧
    (runOwn a (taskScript aid chunks (TaskEnd.throwErr msg))).status = Status.error := by
  refine ⟨?_, ?_, ?_⟩
  · by_cases hn : finalHtmlOf (String.join chunks) = ""
    · rw [runOwn_taskScript_natural_empty aid chunks a hn, if_pos hn, if_pos hn]
      exact ⟨rfl, rfl⟩
    · rw [runOwn_taskScript_natural aid chunks a hn, if_neg hn, if_neg hn]
      exact ⟨rfl, rfl⟩
  · rw [runOwn_taskScript_throw aid chunks msg a]
  · rw [runOwn_taskScript_throw aid chunks msg a]

/-- C8 (counterexample): `applyVariation` writes the chosen variation into
the focused artifact positionally and sets its status to `complete`
unconditionally, so an artifact already in the terminal `Error` state moves
back to `Complete` — the claimed invariant fails for this operation. -/
theorem applyVariation_error_to_complete :
    getArtifact [⟨"s", "p", 0, [⟨"s_0", "Error", "diag", Status.error⟩]⟩] "s" "s_0" =
      some ⟨"s_0", "Error", "diag", Status.error⟩ ∧
    getArtifact (applyVariation 0 0 ⟨"N", "<div>v</div>"⟩
        [⟨"s", "p", 0, [⟨"s_0", "Error", "diag", Status.error⟩]⟩]) "s" "s_0" =
      some ⟨"s_0", "N", "<div>v</div>", Status.complete⟩ := by
  constructor
  · decide
  · decide

/-- C8 (amended): under the generation-task operations — increment merge,
per-task completion, error marking — an artifact's status never reverses:
along any interleaved merge of the task scripts, at every step the
artifact's status either is unchanged or was still `Streaming` before the
step (so the only transitions are Streaming → Complete / Streaming → Error,
and a terminal status never changes again).  `applyVariation`, by contrast,
can set a terminal artifact back to `Complete` (see the counterexample). -/
theorem artifact_status_monotone
    (sessionId : String) (tasks : List (String × List String × TaskEnd))
    (hnodup : (tasks.map (fun tk => tk.1)).Nodup)
    (m : List (String × ArtUpd))
    (hm : Interleave (tasks.map (fun tk => taskScript tk.1 tk.2.1 tk.2.2)) m)
    (ss : List Session) (j : Nat) (tj : String × List String × TaskEnd)
    (hj : tasks[j]? = some tj) (a : Artifact)
    (ha : getArtifact ss sessionId tj.1 = some a)
    (hstream : a.status = Status.streaming) (n : Nat) :
    (getArtifact (runUpds sessionId ss (m.take (n+1))) sessionId tj.1).map Artifact.status =
      (getArtifact (runUpds sessionId ss (m.take n)) sessionId tj.1).map Artifact.status ∨
    (getArtifact (runUpds sessionId ss (m.take n)) sessionId tj.1).map Artifact.status =
      some Status.streaming := by
  have haid : a.id = tj.1 := getArtifact_some_id ha
  rw [getArtifact_runUpds, getArtifact_runUpds, ha, Option.map_some', Option.map_some',
    Option.map_some', Option.map_some', condFold_eq_runOwn_filter, condFold_eq_runOwn_filter]
  have hfull : m.filter (fun u => u.1 == a.id) = taskScript tj.1 tj.2.1 tj.2.2 :=
    merge_filter_eq_taskScript tasks hnodup m hm j tj hj a.id haid
  have hpre1 : (m.take n).filter (fun u => u.1 == a.id) <+:
      (m.take (n+1)).filter (fun u => u.1 == a.id) := by
    apply List.IsPrefix.filter
    rw [List.take_succ]
    exact ⟨m[n]?.toList, rfl⟩
  have hpre2 : (m.take (n+1)).filter (fun u => u.1 == a.id) <+:
      taskScript tj.1 tj.2.1 tj.2.2 := by
    rw [← hfull]
    exact List.IsPrefix.filter _ ( List.take_prefix (n+1) m)
  by_cases hchunk : (m.take n).filter (fun u => u.1 == a.id) <+: chunkUpds tj.1 tj.2.1
  · right
    obtain ⟨-, -, h3⟩ := runOwn_setHtml_fields ((m.take n).filter (fun u => u.1 == a.id))
      (fun u hu => (chunkUpds_mem tj.1 tj.2.1 u (hchunk.subset hu)).2) a
    rw [h3, hstream]
  · left
    have hp : (m.take n).filter (fun u => u.1 == a.id) <+: taskScript tj.1 tj.2.1 tj.2.2 :=
      hpre1.trans hpre2
    have hfn : (m.take n).filter (fun u => u.1 == a.id) = taskScript tj.1 tj.2.1 tj.2.2 := by
      unfold taskScript at hp ⊢
      rcases prefix_snoc hp with h1 | h2
      · exact absurd h1 hchunk
      · exact h2
    have hfn1 : (m.take (n+1)).filter (fun u => u.1 == a.id) =
        taskScript tj.1 tj.2.1 tj.2.2 := by
      apply hpre2.eq_of_length_le
      rw [← hfn]
      exact hpre1.length_le
    rw [hfn, hfn1]

/-- Witness for C8 at the concrete fixture, at the first merge step: task
`a2`'s artifact status either did not change or was still streaming. -/
theorem artifact_status_monotone_witness :
    (getArtifact (runUpds "s" wSessions (wMerge.take 1)) "s" "a2").map Artifact.status =
      (getArtifact (runUpds "s" wSessions (wMerge.take 0)) "s" "a2").map Artifact.status ∨
    (getArtifact (runUpds "s" wSessions (wMerge.take 0)) "s" "a2").map Artifact.status =
      some Status.streaming :=
  artifact_status_monotone "s" wTasks (by decide) wMerge (interleave_flatten _)
    wSessions 2 ("a2", ["z"], TaskEnd.natural) (by decide)
    ⟨"a2", "s2", "", Status.streaming⟩ (by decide) rfl 0

/-- C2: chunking invariance of `parseJsonStream`.  For every sequence of
increments whose concatenation decomposes (per the proviso) into record
spans, each preceded by `{`-free filler, followed by a residue — i.e. every
record's braces are balanced, every record parses, and no earlier malformed
`{...}` span interrupts them — the extractor yields the same record sequence
on the chunked feed as when the whole concatenated text arrives as one
increment. -/
theorem parseJsonStream_chunking_invariant (pok : List Char → Bool)
    (cs : List (List Char)) (rs : List (List Char)) (tl : List Char)
    (h : Chain pok cs.flatten rs tl) :
    parseJsonStream pok cs = parseJsonStream pok [cs.flatten] := by
  unfold parseJsonStream
  have hres0 : Residue ([] : List Char) := ⟨[], [], rfl, noOpen_nil, openSpan_nil⟩
  have h1 : feedChunks pok [] cs = (rs, tl) := by
    apply feedChunks_chain pok cs [] hres0
    rw [List.nil_append]
    exact h
  have h2 : feedChunks pok [] [cs.flatten] = (rs, tl) := by
    apply feedChunks_chain pok [cs.flatten] [] hres0
    rw [List.nil_append]
    rw [show ([cs.flatten] : List (List Char)).flatten = cs.flatten from by simp]
    exact h
  rw [h1, h2]

/-- Witness for C2: the record split across two increments `"{"` then
`"}"` is extracted identically to the single-increment feed. -/
theorem parseJsonStream_chunking_invariant_witness :
    parseJsonStream (fun _ => true) [['{'], ['}']] =
      parseJsonStream (fun _ => true) [([['{'], ['}']] : List (List Char)).flatten] := by
  refine parseJsonStream_chunking_invariant (fun _ => true) [['{'], ['}']] [['{', '}']] [] ?_
  show Chain (fun _ => true) ['{', '}'] [['{', '}']] []
  refine Chain.cons [] ['{', '}'] [] [] [] noOpen_nil
    ⟨rfl, by decide, ?_, rfl⟩ (Chain.tail [] [] noOpen_nil openSpan_nil)
  intro n hn
  have hn0 : n = 0 := by
    simp only [List.length_cons, List.length_nil] at hn
    omega
  subst hn0
  decide

end FlashUI
